import Mathlib

/-!
Verification development for the workday-to-googlecal repository.

The JavaScript sources are shallowly embedded as executable Lean
definitions:

* the client-side schedule extractor (`parseWorkdayData` and its helper
  functions `findColumn`, `getCellValue`, `extractCourseName`,
  `parseMeetingPatterns`, `convertExcelDate`, `isValidCourse`,
  `getFirstMeetingDate`) from the front-end script;
* the server-side calendar manager (`createEvents`,
  `createEventFromCourse`, `parseDateTime`, `parseTime`,
  `getRecurrenceRule`, `deleteEventsByBatch`) from the latest revision of
  scripts/google-calendar.js.

JavaScript strings are modelled as `String`, `null`/`undefined` string
values as `Option String`, thrown exceptions as `Except String`, and the
external Google Calendar provider as explicit function parameters.  Dates
manipulated through the JavaScript `Date` object are modelled by a civil
Gregorian calendar type together with day-number arithmetic, which is the
semantics of `Date` time values.  Character classes of the regular
expressions involved (`\s`, `\d`, `[A-Z]`) are modelled over ASCII, which
covers every value the pipeline produces.
-/

namespace Workday

/- ## JavaScript string primitives -/

/-- Character class `[A-Z]` of the course-code regular expression. -/
def isUpperAZ (c : Char) : Bool := 'A' ≤ c && c ≤ 'Z'

/-- Character class `\d`. -/
def isDigit09 (c : Char) : Bool := '0' ≤ c && c ≤ '9'

/-- Character class `\s`, restricted to its ASCII members. -/
def isWsChar (c : Char) : Bool :=
  c = ' ' || c = '\t' || c = '\n' || c = '\r' || c = '\x0b' || c = '\x0c'

/-- ASCII lower-casing of one character, as `String.prototype.toLowerCase`
acts on the ASCII range. -/
def charLower (c : Char) : Char :=
  if 'A' ≤ c && c ≤ 'Z' then Char.ofNat (c.toNat + 32) else c

/-- JavaScript `s.toLowerCase()` on ASCII data. -/
def strLower (s : String) : String := String.mk (s.toList.map charLower)

/-- Decides whether `n` occurs at the start of `h`. -/
def listHasPref : List Char → List Char → Bool
  | [], _ => true
  | _ :: _, [] => false
  | c :: cs, h :: hs => c == h && listHasPref cs hs

/-- Decides whether `n` occurs contiguously inside `h`. -/
def listHasSub (n : List Char) (h : List Char) : Bool :=
  match h with
  | [] => n.isEmpty
  | _ :: hs => listHasPref n h || listHasSub n hs

/-- JavaScript `hay.includes(needle)`. -/
def jsIncludes (hay needle : String) : Bool :=
  listHasSub needle.toList hay.toList

/-- Drops leading characters satisfying `p`. -/
def dropLeading (p : Char → Bool) (l : List Char) : List Char := l.dropWhile p

/-- JavaScript `s.trim()` (ASCII whitespace). -/
def jsTrim (s : String) : String :=
  String.mk (((s.toList.dropWhile isWsChar).reverse.dropWhile isWsChar).reverse)

/-- Splits a character list at every separator character satisfying `p`,
keeping empty pieces, as `String.prototype.split` with a one-character
class regular expression does. -/
def splitChars (p : Char → Bool) : List Char → List (List Char)
  | [] => [[]]
  | c :: cs =>
      let rest := splitChars p cs
      if p c then [] :: rest
      else
        match rest with
        | [] => [[c]]
        | piece :: pieces => (c :: piece) :: pieces

/-- JavaScript `s.split(sep)` for a class of separator characters. -/
def jsSplit (p : Char → Bool) (s : String) : List String :=
  (splitChars p s.toList).map String.mk

/- ## Decimal rendering and parsing -/

/-- Decimal digit character of a value below ten. -/
def digitChar09 (n : Nat) : Char := Char.ofNat (48 + n % 10)

/-- Fuel-driven decimal digit expansion, most significant digit first. -/
def natDigitsAux : Nat → Nat → List Char
  | 0, _ => []
  | fuel + 1, n =>
      if n < 10 then [digitChar09 n]
      else natDigitsAux fuel (n / 10) ++ [digitChar09 (n % 10)]

/-- JavaScript `String(n)` for a natural number. -/
def jsStringNat (n : Nat) : String := String.mk (natDigitsAux 30 n)

/-- JavaScript `s.padStart(w, "0")`. -/
def padZero (w : Nat) (s : String) : String :=
  String.mk (List.replicate (w - s.length) '0' ++ s.toList)

/-- Value of a list of decimal digit characters. -/
def digitsVal (l : List Char) : Nat :=
  l.foldl (fun acc c => acc * 10 + (c.toNat - 48)) 0

/-- JavaScript `parseInt(s)` restricted to the strings this code base
feeds it, which consist of decimal digits and colons: the value of the
leading digit run, or `none` for `NaN` when there is no leading digit. -/
def jsParseIntOpt (s : String) : Option Nat :=
  let ds := s.toList.takeWhile isDigit09
  if ds.isEmpty then none else some (digitsVal ds)

/-- JavaScript `Number(s)` on the strings produced by splitting a date
string: the empty string converts to `0`, a digit string to its value,
an optional leading minus sign negates, and anything else is `NaN`. -/
def jsNumOpt (s : String) : Option Int :=
  let l := s.toList
  if l.isEmpty then some 0
  else if l.all isDigit09 then some (digitsVal l)
  else
    match l with
    | '-' :: rest => if !rest.isEmpty && rest.all isDigit09 then some (-(digitsVal rest : Int)) else none
    | _ => none

/-- JavaScript `parseFloat(s)` restricted to integer-valued numerals:
leading ASCII whitespace is skipped, an optional sign is read, and a
non-empty digit run must follow; any remaining characters are ignored.
Fractional serial numbers are outside the scope of the claims. -/
def jsParseFloatInt (s : String) : Option Int :=
  let l := s.toList.dropWhile isWsChar
  match l with
  | '-' :: rest =>
      let ds := rest.takeWhile isDigit09
      if ds.isEmpty then none else some (-(digitsVal ds : Int))
  | _ =>
      let ds := l.takeWhile isDigit09
      if ds.isEmpty then none else some (digitsVal ds)

/- ## Civil Gregorian calendar -/

/-- Gregorian leap-year predicate. -/
def isLeap (y : Nat) : Bool := y % 4 == 0 && (y % 100 != 0 || y % 400 == 0)

/-- Length of a month of the Gregorian calendar. -/
def daysInMonth (y m : Nat) : Nat :=
  if m = 2 then (if isLeap y then 29 else 28)
  else if m = 4 || m = 6 || m = 9 || m = 11 then 30
  else 31

/-- Length of a Gregorian year. -/
def daysInYear (y : Nat) : Nat := if isLeap y then 366 else 365

/-- Calendar date as year, month (1 to 12) and day of month (1 based). -/
structure CivDate where
  year : Nat
  month : Nat
  day : Nat
deriving DecidableEq, Repr

/-- Validity of a civil date within the embedding: the year does not lie
before the 1900 epoch the pipeline counts from. -/
def validDate (dt : CivDate) : Prop :=
  1900 ≤ dt.year ∧ 1 ≤ dt.month ∧ dt.month ≤ 12 ∧
    1 ≤ dt.day ∧ dt.day ≤ daysInMonth dt.year dt.month

instance (dt : CivDate) : Decidable (validDate dt) := by
  unfold validDate; infer_instance

/-- Successor date in the civil calendar. -/
def nextDay (dt : CivDate) : CivDate :=
  if dt.day < daysInMonth dt.year dt.month then ⟨dt.year, dt.month, dt.day + 1⟩
  else if dt.month < 12 then ⟨dt.year, dt.month + 1, 1⟩
  else ⟨dt.year + 1, 1, 1⟩

/-- Total day count of the span of `k` consecutive years starting at
`y0`. -/
def yearSpan (y0 : Nat) : Nat → Nat
  | 0 => 0
  | k + 1 => daysInYear y0 + yearSpan (y0 + 1) k

/-- Total day count of the span of `k` consecutive months of year `y`
starting at month `m0`. -/
def monthSpan (y m0 : Nat) : Nat → Nat
  | 0 => 0
  | k + 1 => daysInMonth y m0 + monthSpan y (m0 + 1) k

/-- Day number of a civil date counted from 1900-01-01 as day zero.
This is the day component of the JavaScript `Date` time value shifted to
the 1900 epoch. -/
def civilToDays1900 (dt : CivDate) : Nat :=
  yearSpan 1900 (dt.year - 1900) + monthSpan dt.year 1 (dt.month - 1) + (dt.day - 1)

/-- Strips whole years off a day count, returning the reached year and
the remaining days. -/
def stripYears : Nat → Nat → Nat → Nat × Nat
  | 0, y, d => (y, d)
  | fuel + 1, y, d =>
      if d < daysInYear y then (y, d) else stripYears fuel (y + 1) (d - daysInYear y)

/-- Strips whole months off a day count inside year `y`, returning the
reached month and the remaining days. -/
def stripMonths : Nat → Nat → Nat → Nat → Nat × Nat
  | 0, _, m, d => (m, d)
  | fuel + 1, y, m, d =>
      if d < daysInMonth y m then (m, d) else stripMonths fuel y (m + 1) (d - daysInMonth y m)

/-- Civil date of the day number `d` counted from 1900-01-01 as day
zero, the inverse view of the JavaScript `Date` time value. -/
def civilOfDays1900 (d : Nat) : CivDate :=
  ⟨(stripYears (d + 1) 1900 d).1,
   (stripMonths 12 (stripYears (d + 1) 1900 d).1 1 (stripYears (d + 1) 1900 d).2).1,
   (stripMonths 12 (stripYears (d + 1) 1900 d).1 1 (stripYears (d + 1) 1900 d).2).2 + 1⟩

/-- JavaScript `getDay()` (0 = Sunday) of the day number `d` counted
from 1900-01-01, which was a Monday. -/
def jsGetDay (d : Nat) : Nat := (d + 1) % 7

/- ## Regular expression fragments used by the extractor

The two regular expressions of the extractor are embedded as direct
backtracking-free matchers: in both patterns every adjacent pair of
sub-expressions draws from disjoint character classes, so the greedy
run-based reading below coincides with the JavaScript engine. -/

/-- Matcher for the separator fragment of the course-listing pattern:
consumes one occurrence of the whitespace, dash, whitespace sequence and
returns the remaining characters. -/
def matchDashSep (l : List Char) : Option (List Char) :=
  match l.dropWhile isWsChar with
  | '-' :: rest => some (rest.dropWhile isWsChar)
  | _ => none

/-- Matcher for the capture group of two to four uppercase letters, some
whitespace and four digits, at the current position: returns the matched
characters and the remainder. -/
def matchCode (l : List Char) : Option (List Char × List Char) :=
  let us := l.takeWhile isUpperAZ
  if 2 ≤ us.length && us.length ≤ 4 then
    let r1 := l.drop us.length
    let ws := r1.takeWhile isWsChar
    if 1 ≤ ws.length then
      let r2 := r1.drop ws.length
      let ds := r2.take 4
      if ds.length = 4 && ds.all isDigit09 then some (us ++ ws ++ ds, r2.drop 4)
      else none
    else none
  else none

/-- Non-newline character class of the dot in the course-listing
pattern. -/
def isDotChar (c : Char) : Bool := c ≠ '\n' && c ≠ '\r'

/-- Terminator test of the lazy description group: either the trailing
Fall marker follows here, or the string ends here. -/
def fallOrEnd (l : List Char) : Bool :=
  (match l.dropWhile isWsChar with
   | '-' :: rest => listHasPref ['F', 'a', 'l', 'l'] (rest.dropWhile isWsChar)
   | _ => false) || l.isEmpty

/-- Lazy matcher of the description group: consumes the shortest
non-empty run of non-newline characters after which `fallOrEnd` holds. -/
def matchGroup2 : List Char → List Char → Option (List Char × List Char)
  | _, [] => none
  | acc, c :: rest =>
      if isDotChar c then
        if fallOrEnd rest then some (acc ++ [c], rest)
        else matchGroup2 (acc ++ [c]) rest
      else none

/-- Full course-listing pattern at the current position: returns the two
capture groups. -/
def matchCourseAt (l : List Char) : Option (String × String) :=
  (matchCode l).bind fun cr =>
    (matchDashSep cr.2).bind fun r2 =>
      (matchGroup2 [] r2).map fun g => (String.mk cr.1, String.mk g.1)

/-- Leftmost match of the course-listing pattern, as
`String.prototype.match` finds it. -/
def findCourseMatch : List Char → Option (String × String)
  | [] => none
  | l@(_ :: rest) =>
      match matchCourseAt l with
      | some g => some g
      | none => findCourseMatch rest

/-- Embedding of `extractCourseName`: reconstructs the course code and
description from the leftmost match of the course-listing pattern, or
passes the raw string through; an empty input yields the sentinel. -/
def extractCourseName (courseListing : String) : String :=
  if courseListing = "" || jsTrim courseListing = "" then "Untitled Course"
  else
    match findCourseMatch courseListing.toList with
    | some g => g.1 ++ " - " ++ g.2
    | none => courseListing

/-- Matcher of one clock-time atom of the meeting-pattern time regular
expression: one or two digits, a colon, two digits, optional whitespace
and AM or PM; returns the matched characters and the remainder. -/
def matchTimeAtom (l : List Char) : Option (List Char × List Char) :=
  let ds := l.takeWhile isDigit09
  if 1 ≤ ds.length && ds.length ≤ 2 then
    match l.drop ds.length with
    | ':' :: r2 =>
        let mm := r2.take 2
        if mm.length = 2 && mm.all isDigit09 then
          let r3 := r2.drop 2
          let ws := r3.takeWhile isWsChar
          match r3.dropWhile isWsChar with
          | c :: 'M' :: r4 =>
              if c = 'A' || c = 'P' then some (ds ++ [':'] ++ mm ++ ws ++ [c, 'M'], r4)
              else none
          | _ => none
        else none
    | _ => none
  else none

/-- Full time-range pattern at the current position: returns the two
captured clock times. -/
def matchTimeRangeAt (l : List Char) : Option (String × String) :=
  (matchTimeAtom l).bind fun a1 =>
    (matchDashSep a1.2).bind fun r2 =>
      (matchTimeAtom r2).map fun a2 => (String.mk a1.1, String.mk a2.1)

/-- Leftmost match of the time-range pattern. -/
def findTimeMatch : List Char → Option (String × String)
  | [] => none
  | l@(_ :: rest) =>
      match matchTimeRangeAt l with
      | some g => some g
      | none => findTimeMatch rest

/- ## Client-side schedule extractor -/

/-- Result record of `parseMeetingPatterns`. -/
structure MeetingInfo where
  days : String
  startTime : String
  endTime : String
  location : String
deriving DecidableEq, Repr

/-- The seven day names pushed for one slash-separated fragment, in the
checking order Monday through Sunday of the source. -/
def dayFragNames (part : String) : List String :=
  (if jsIncludes part "Mon" then ["Monday"] else []) ++
  (if jsIncludes part "Tue" then ["Tuesday"] else []) ++
  (if jsIncludes part "Wed" then ["Wednesday"] else []) ++
  (if jsIncludes part "Thu" then ["Thursday"] else []) ++
  (if jsIncludes part "Fri" then ["Friday"] else []) ++
  (if jsIncludes part "Sat" then ["Saturday"] else []) ++
  (if jsIncludes part "Sun" then ["Sunday"] else [])

/-- The single-day branch of the day parsing: a cascade of independent
reassignments in which the last matching day wins, starting from the
Monday default. -/
def singleDayName (dayStr : String) : String :=
  if jsIncludes dayStr "Sun" then "Sunday"
  else if jsIncludes dayStr "Sat" then "Saturday"
  else if jsIncludes dayStr "Fri" then "Friday"
  else if jsIncludes dayStr "Thu" then "Thursday"
  else if jsIncludes dayStr "Wed" then "Wednesday"
  else if jsIncludes dayStr "Tue" then "Tuesday"
  else if jsIncludes dayStr "Mon" then "Monday"
  else "Monday"

/-- Embedding of `parseMeetingPatterns`: splits the cell on the pipe
character into day, time-range and location segments and parses each,
keeping the source defaults where a segment is absent or unmatched. -/
def parseMeetingPatterns (meetingPatterns : String) : MeetingInfo :=
  let parts := (jsSplit (· = '|') meetingPatterns).map jsTrim
  let dayStr := parts.getD 0 ""
  let days :=
    if jsIncludes dayStr "/" then
      String.intercalate "/" ((jsSplit (· = '/') dayStr).flatMap dayFragNames)
    else singleDayName dayStr
  if parts.length ≥ 2 then
    let timeStr := parts.getD 1 ""
    if timeStr = "" then ⟨days, "09:00", "10:00", ""⟩
    else
      let times :=
        match findTimeMatch timeStr.toList with
        | some g => g
        | none => ("09:00", "10:00")
      let location := if parts.length ≥ 3 then parts.getD 2 "" else ""
      ⟨days, times.1, times.2, location⟩
  else ⟨days, "09:00", "10:00", ""⟩

/-- JavaScript `a || b` on strings: the empty string is the only falsy
string. -/
def jsOr (s d : String) : String := if s = "" then d else s

/-- Embedding of `findColumn`: index of the first header cell whose
lower-cased trimmed text contains one of the keywords; `none` stands for
the JavaScript return value -1. -/
def findColumn (headers : List String) (keywords : List String) : Option Nat :=
  headers.findIdx? fun h =>
    keywords.any fun k => jsIncludes (jsTrim (strLower h)) (strLower k)

/-- Embedding of `getCellValue`: the trimmed cell text, or the empty
string when the column is unresolved, absent or falsy. -/
def getCellValue (row : List String) (columnIndex : Option Nat) : String :=
  match columnIndex with
  | none => ""
  | some i => jsTrim (row.getD i "")

/-- Embedding of `convertExcelDate`: parses the cell as a number, applies
the 1900 leap-year-bug adjustment of one day above serial 59, and renders
the day count from the 1900 epoch as an ISO date string.  The JavaScript
original extends to serials below 1 (dates before the epoch); the claims
only concern serials of at least 1, where the embedding agrees. -/
def convertExcelDate (excelSerial : String) : Option String :=
  match jsParseFloatInt excelSerial with
  | none => none
  | some serial =>
      let adjustedSerial := if serial > 59 then serial - 1 else serial
      let dt := civilOfDays1900 (adjustedSerial - 1).toNat
      some (jsStringNat dt.year ++ "-" ++ padZero 2 (jsStringNat dt.month) ++ "-" ++
        padZero 2 (jsStringNat dt.day))

/-- Course record constructed by the extractor. -/
structure Course where
  id : Nat
  title : String
  days : String
  time : String
  endTime : String
  location : String
  instructor : String
  registrationStatus : String
  startDate : Option String
  endDate : Option String
deriving DecidableEq, Repr

/-- Test of the anchored course-code pattern of two to four uppercase
letters, whitespace and four digits. -/
def courseCodeTest (s : String) : Bool :=
  let l := s.toList
  let us := l.takeWhile isUpperAZ
  (2 ≤ us.length && us.length ≤ 4) &&
    (let r1 := l.drop us.length
     let ws := r1.takeWhile isWsChar
     1 ≤ ws.length &&
       (let r2 := r1.drop ws.length
        (r2.take 4).length = 4 && (r2.take 4).all isDigit09))

/-- Registration-status exclusion test of `isValidCourse`. -/
def statusExcluded (registrationStatus : String) : Bool :=
  jsIncludes (strLower registrationStatus) "unregistered" ||
  jsIncludes (strLower registrationStatus) "dropped" ||
  jsIncludes (strLower registrationStatus) "withdrawn"

/-- Embedding of `isValidCourse`.  The unused row parameter of the
JavaScript signature is dropped. -/
def isValidCourse (course : Course) : Bool :=
  courseCodeTest course.title && !statusExcluded course.registrationStatus

/-- Header-detection test for one row: the row mentions meeting
patterns, an instructor and a course listing. -/
def rowHasHeaders (row : List String) : Bool :=
  (row.any fun c => c ≠ "" && jsIncludes (strLower c) "meeting patterns") &&
  (row.any fun c => c ≠ "" && jsIncludes (strLower c) "instructor") &&
  (row.any fun c => c ≠ "" && jsIncludes (strLower c) "course listing")

/-- Header-row scan of `parseWorkdayData`: the first of the first ten
rows passing `rowHasHeaders`, defaulting to row 0. -/
def headerRowIdx (data : List (List String)) : Nat :=
  match (List.range (min 10 data.length)).find? (fun i => rowHasHeaders (data.getD i [])) with
  | some i => i
  | none => 0

/-- Resolved column map of `parseWorkdayData`. -/
structure ColumnMap where
  courseListing : Option Nat
  meetingPatterns : Option Nat
  instructor : Option Nat
  startDate : Option Nat
  endDate : Option Nat
  registrationStatus : Option Nat
deriving DecidableEq, Repr

/-- Column resolution of `parseWorkdayData` over the header row. -/
def columnMapOf (headers : List String) : ColumnMap where
  courseListing := findColumn headers ["course listing", "course", "subject", "class", "name", "title"]
  meetingPatterns := findColumn headers
    ["meeting patterns", "enrolled sections meeting patterns", "schedule", "days", "time"]
  instructor := findColumn headers ["instructor", "professor", "teacher", "staff"]
  startDate := findColumn headers ["start date", "start"]
  endDate := findColumn headers ["end date", "end"]
  registrationStatus := findColumn headers ["registration status", "status", "enrollment status"]

/-- Course record built for one data row of `parseWorkdayData`, with the
field defaults of the source; `nextId` is one more than the count of
courses already kept. -/
def courseOfRow (cmap : ColumnMap) (nextId : Nat) (row : List String) : Course :=
  let meetingInfo := parseMeetingPatterns (getCellValue row cmap.meetingPatterns)
  let startDateSerial := getCellValue row cmap.startDate
  let endDateSerial := getCellValue row cmap.endDate
  { id := nextId
    title := jsOr (extractCourseName (getCellValue row cmap.courseListing)) "Untitled Event"
    days := jsOr meetingInfo.days "Monday"
    time := jsOr meetingInfo.startTime "09:00"
    endTime := jsOr meetingInfo.endTime "10:00"
    location := jsOr meetingInfo.location ""
    instructor := getCellValue row cmap.instructor
    registrationStatus := getCellValue row cmap.registrationStatus
    startDate := if startDateSerial = "" then none else convertExcelDate startDateSerial
    endDate := if endDateSerial = "" then none else convertExcelDate endDateSerial }

/-- Body of the per-row loop of `parseWorkdayData`: skips empty and
artifact rows, builds the Course record, and keeps it only when
`isValidCourse` accepts it. -/
def parseRow (cmap : ColumnMap) (acc : List Course) (row : List String) : List Course :=
  if row.all (· = "") then acc
  else
    let courseListing := getCellValue row cmap.courseListing
    if courseListing = "" || courseListing = "Course Listing" || courseListing = "13" then acc
    else
      let course := courseOfRow cmap (acc.length + 1) row
      if isValidCourse course then acc ++ [course] else acc

/-- Embedding of `parseWorkdayData`: header detection, column
resolution, and the row loop. -/
def parseWorkdayData (data : List (List String)) : List Course :=
  if data.length < 2 then []
  else
    let headerRow := headerRowIdx data
    let cmap := columnMapOf (data.getD headerRow [])
    (data.drop (headerRow + 1)).foldl (parseRow cmap) []

/- ## First meeting date -/

/-- Day-name table of `getFirstMeetingDate`, with the JavaScript weekday
indices (0 = Sunday). -/
def dayNameIdx (s : String) : Option Nat :=
  if s = "Sunday" then some 0
  else if s = "Monday" then some 1
  else if s = "Tuesday" then some 2
  else if s = "Wednesday" then some 3
  else if s = "Thursday" then some 4
  else if s = "Friday" then some 5
  else if s = "Saturday" then some 6
  else none

/-- Target weekday indices parsed from the day string: split on slash or
comma, trim, drop empties, look up full day names. -/
def targetIndicesOf (daysStr : String) : List Nat :=
  if daysStr = "" then []
  else
    (((jsSplit (fun c => c = '/' || c = ',') daysStr).map jsTrim).filter (· ≠ "")).filterMap
      dayNameIdx

/-- Date parsing section shared verbatim by `getFirstMeetingDate` on the
client and `parseDateTime` on the server: the dash branch reads year,
month, day; the slash branch reads month, day, year with the
two-digit-year rule.  The generic `Date` constructor fallback of the
source, which none of the pipeline date formats reaches, is treated as
unparseable, as are negative components, which no pipeline date format
produces either. -/
def parseStartCivil (s : String) : Option CivDate :=
  if jsIncludes s "-" then
    let parts := (jsSplit (· = '-') s).map jsNumOpt
    match parts.getD 0 none, parts.getD 1 none, parts.getD 2 none with
    | some y, some m, some d =>
        if 0 < y && 0 < m && 0 < d then some ⟨y.toNat, m.toNat, d.toNat⟩ else none
    | _, _, _ => none
  else if jsIncludes s "/" then
    let parts := (jsSplit (· = '/') s).map jsNumOpt
    if parts.length = 3 then
      match parts.getD 0 none, parts.getD 1 none, parts.getD 2 none with
      | some m, some d, some y0 =>
          let y := if y0 < 100 then (if y0 < 30 then y0 + 2000 else y0 + 1900) else y0
          if 0 < y && 0 < m && 0 < d then some ⟨y.toNat, m.toNat, d.toNat⟩ else none
      | _, _, _ => none
    else none
  else none

/-- Date rendering of `getFirstMeetingDate`, with the year padded to
four digits and month and day to two. -/
def fmtPad4 (dt : CivDate) : String :=
  padZero 4 (jsStringNat dt.year) ++ "-" ++ padZero 2 (jsStringNat dt.month) ++ "-" ++
    padZero 2 (jsStringNat dt.day)

/-- Embedding of `getFirstMeetingDate`.  The current date read from
`new Date()` is passed explicitly as `today`.  The catch-all fallback of
the source is unreachable in the pure embedding and is omitted. -/
def getFirstMeetingDate (today : CivDate) (startDateStr : Option String) (daysStr : String) :
    String :=
  let targetIndices := targetIndicesOf daysStr
  if targetIndices.isEmpty then fmtPad4 today
  else
    let parsed := startDateStr.bind fun s => if s = "" then none else parseStartCivil s
    let start := parsed.getD today
    let n := civilToDays1900 start
    if targetIndices.contains (jsGetDay n) then fmtPad4 start
    else
      match (List.range' 1 7).find? (fun offset => targetIndices.contains (jsGetDay (n + offset))) with
      | some offset => fmtPad4 (civilOfDays1900 (n + offset))
      | none => fmtPad4 start

/- ## Server-side calendar manager (latest revision of the Google
Calendar integration) -/

/-- Embedding of the server `parseTime`: strips everything but digits
and colons, reads hours and minutes with their JavaScript fallback
defaults, and applies the two AM and PM adjustments sequentially. -/
def parseTime (timeStr : String) : Option (Nat × Nat) :=
  if timeStr = "" then none
  else
    let isPM := jsIncludes (strLower timeStr) "pm"
    let isAM := jsIncludes (strLower timeStr) "am"
    let digitsOnly := String.mk (timeStr.toList.filter fun c => isDigit09 c || c = ':')
    let pieces := jsSplit (· = ':') digitsOnly
    let hoursStr := pieces.getD 0 ""
    let minutesStr := pieces.getD 1 ""
    let hour0 :=
      match jsParseIntOpt hoursStr with
      | some n => if n = 0 then 9 else n
      | none => 9
    let hour1 := if isPM && hour0 < 12 then hour0 + 12 else hour0
    let hour24 := if isAM && hour1 = 12 then 0 else hour1
    some (hour24, (jsParseIntOpt minutesStr).getD 0)

/-- JavaScript template-string rendering of a nullable string. -/
def renderNullable (o : Option String) : String :=
  match o with
  | none => "null"
  | some s => s

/-- Embedding of the server `parseDateTime`: parses the time, parses the
date through the shared branch structure of `parseStartCivil`, and
renders the local ISO string without a UTC suffix. -/
def parseDateTime (dateStr : Option String) (timeStr : String) : Option String :=
  match dateStr with
  | none => none
  | some d =>
      if d = "" || timeStr = "" then none
      else
        match parseTime timeStr with
        | none => none
        | some t =>
            match parseStartCivil d with
            | none => none
            | some dt =>
                some (padZero 4 (jsStringNat dt.year) ++ "-" ++ padZero 2 (jsStringNat dt.month) ++
                  "-" ++ padZero 2 (jsStringNat dt.day) ++ "T" ++ padZero 2 (jsStringNat t.1) ++
                  ":" ++ padZero 2 (jsStringNat t.2) ++ ":00")

/-- Weekday-code table of the server `getRecurrenceRule`, keyed by full
day names only. -/
def dayCodeOf (day : String) : Option String :=
  if day = "Monday" then some "MO"
  else if day = "Tuesday" then some "TU"
  else if day = "Wednesday" then some "WE"
  else if day = "Thursday" then some "TH"
  else if day = "Friday" then some "FR"
  else if day = "Saturday" then some "SA"
  else if day = "Sunday" then some "SU"
  else none

/-- Model of `new Date(s)` followed by the `isNaN` validity test, for
the date-only strings this path receives: a padded ISO `YYYY-MM-DD`
string denoting a real calendar date parses to that civil date in UTC;
anything else is invalid.  The legacy non-ISO formats the JavaScript
constructor additionally accepts are outside the pipeline and modelled
as invalid. -/
def jsDateParse (s : String) : Option CivDate :=
  match (jsSplit (· = '-') s).map String.toList with
  | [ys, ms, ds] =>
      if ys.length = 4 && ys.all isDigit09 && ms.length = 2 && ms.all isDigit09 &&
          ds.length = 2 && ds.all isDigit09 then
        let y := digitsVal ys
        let m := digitsVal ms
        let d := digitsVal ds
        if 1 ≤ m && m ≤ 12 && 1 ≤ d && d ≤ daysInMonth y m then some ⟨y, m, d⟩ else none
      else none
  | _ => none

/-- Date part of `toISOString` for a UTC civil date, with the dashes
removed, as the UNTIL rendering of `getRecurrenceRule` computes it. -/
def untilCompact (dt : CivDate) : String :=
  padZero 4 (jsStringNat dt.year) ++ padZero 2 (jsStringNat dt.month) ++
    padZero 2 (jsStringNat dt.day)

/-- Embedding of the server `getRecurrenceRule`: rejects absent inputs,
maps slash- or comma-separated full day names to weekday codes, rejects
an empty mapping or an invalid boundary date, and renders the single
weekly RRULE string. -/
def getRecurrenceRule (days : String) (startDate endDate : Option String) :
    Option (List String) :=
  match startDate, endDate with
  | some sd, some ed =>
      if days = "" || sd = "" || ed = "" then none
      else
        let dayList := (jsSplit (fun c => c = '/' || c = ',') days).filterMap
          fun day => dayCodeOf (jsTrim day)
        if dayList.isEmpty then none
        else
          match jsDateParse sd, jsDateParse ed with
          | some _, some endDt =>
              some ["RRULE:FREQ=WEEKLY;BYDAY=" ++ String.intercalate "," dayList ++
                ";UNTIL=" ++ untilCompact endDt]
          | _, _ => none
  | _, _ => none

/-- Start or end field of a calendar event body. -/
structure EventDateTime where
  dateTime : String
  timeZone : String
deriving DecidableEq, Repr

/-- Calendar event body submitted to the provider insert call.  The
constant reminder overrides of the source carry no claim-relevant data
and are omitted; the private extended properties appear as the
`appSource` and `batchId` fields. -/
structure EventBody where
  summary : String
  description : String
  location : String
  eventStart : EventDateTime
  eventEnd : EventDateTime
  recurrence : List String
  appSource : String
  batchId : String
deriving DecidableEq, Repr

/-- Event resource returned by the provider. -/
structure GEvent where
  id : String
  summary : String
deriving DecidableEq, Repr

/-- Pure body-construction part of `createEventFromCourse`: both thrown
validation errors carry their source messages. -/
def buildEventBody (course : Course) (batchId : String) : Except String EventBody :=
  let startDateTime := parseDateTime course.startDate course.time
  let endDateTime := parseDateTime course.startDate course.endTime
  match startDateTime, endDateTime with
  | some s, some e =>
      match getRecurrenceRule course.days course.startDate course.endDate with
      | some recurrence =>
          .ok
            { summary := course.title
              description := "Instructor: " ++ jsOr course.instructor "TBA" ++ "\nLocation: " ++
                jsOr course.location "TBA"
              location := jsOr course.location "TBA"
              eventStart := ⟨s, "America/Chicago"⟩
              eventEnd := ⟨e, "America/Chicago"⟩
              recurrence := recurrence
              appSource := "workday-to-googlecal"
              batchId := jsOr batchId "unknown" }
      | none =>
          .error ("Invalid recurrence rule for course \"" ++ course.title ++ "\". Days: " ++
            course.days)
  | _, _ =>
      .error ("Invalid date/time for course \"" ++ course.title ++ "\". Start: " ++
        renderNullable course.startDate ++ " " ++ course.time ++ ", End: " ++
        renderNullable course.endDate ++ " " ++ course.endTime)

/-- Provider insert operation, taking the calendar id and the event
body. -/
def InsertFn : Type := String → EventBody → Except String GEvent

/-- Embedding of `createEventFromCourse`: builds the body and submits it
through the provider. -/
def createEventFromCourse (insert : InsertFn) (course : Course) (calendarId batchId : String) :
    Except String GEvent :=
  (buildEventBody course batchId).bind fun body => insert calendarId body

/-- Result record of `createEvents`. -/
structure CreateResult where
  events : List GEvent
  errors : List String
  eventIds : List String
  batchId : String
deriving DecidableEq, Repr

/-- Batch identifier generation of `createEvents`, from the current
timestamp and a random base-36 suffix, both passed in as opaque
strings. -/
def genBatchId (now rand : String) : String := "batch_" ++ now ++ "_" ++ rand

/-- Effective batch identifier of one `createEvents` call: the supplied
one when truthy, otherwise a generated one. -/
def effectiveBatchId (batchId : Option String) (now rand : String) : String :=
  match batchId with
  | some s => if s = "" then genBatchId now rand else s
  | none => genBatchId now rand

/-- Loop body of `createEvents`: a created event extends the event and
id lists, a caught failure appends the quoted per-course error string. -/
def createStep (insert : InsertFn) (calendarId b : String) (acc : CreateResult)
    (course : Course) : CreateResult :=
  match createEventFromCourse insert course calendarId b with
  | .ok event =>
      { acc with events := acc.events ++ [event], eventIds := acc.eventIds ++ [event.id] }
  | .error msg =>
      { acc with errors := acc.errors ++ ["Course \"" ++ course.title ++ "\": " ++ msg] }

/-- Embedding of `createEvents`: fails outright without authentication
tokens, otherwise fixes the batch identifier for the whole call and
attempts every course independently, collecting created events and
per-course error strings in input order. -/
def createEvents (hasTokens : Bool) (insert : InsertFn) (courses : List Course)
    (calendarId : String) (batchId : Option String) (now rand : String) :
    Except String CreateResult :=
  if !hasTokens then
    .error ("Failed to create events: " ++
      "No authentication tokens found. Please authenticate with Google Calendar first.")
  else
    let b := effectiveBatchId batchId now rand
    .ok <| courses.foldl (createStep insert calendarId b) ⟨[], [], [], b⟩

/-- Sequence of event bodies actually submitted to the provider during
one `createEvents` call with effective batch identifier `b`: one body
per course whose construction succeeds, in input order. -/
def submittedBodies (courses : List Course) (b : String) : List EventBody :=
  courses.filterMap fun course => (buildEventBody course b).toOption

/-- Query record of the provider events.list call. -/
structure ListQuery where
  calendarId : String
  privateExtendedProperty : String
  maxResults : Nat
  singleEvents : Bool
deriving DecidableEq, Repr

/-- Result record of `deleteEventsByBatch`. -/
structure DeleteResult where
  deletedCount : Nat
  deletedIds : List String
  errors : List String
  totalFound : Nat
deriving DecidableEq, Repr

/-- Loop body of `deleteEventsByBatch`: a successful delete records the
event id, a failure appends the quoted per-event error string. -/
def deleteStep (deleteEvent : String → String → Except String Unit) (calendarId : String)
    (acc : List String × List String) (event : GEvent) : List String × List String :=
  match deleteEvent calendarId event.id with
  | .ok _ => (acc.1 ++ [event.id], acc.2)
  | .error msg => (acc.1, acc.2 ++ ["Event \"" ++ event.summary ++ "\": " ++ msg])

/-- Embedding of `deleteEventsByBatch`: one list query with the private
batch-identifier filter, a fixed page size of 100 and no pagination,
then one independent delete per found event, collecting failures. -/
def deleteEventsByBatch (listEvents : ListQuery → List GEvent)
    (deleteEvent : String → String → Except String Unit) (batchId calendarId : String) :
    DeleteResult :=
  let events := listEvents ⟨calendarId, "batchId=" ++ batchId, 100, false⟩
  let r := events.foldl (deleteStep deleteEvent calendarId) ([], [])
  ⟨r.1.length, r.1, r.2, events.length⟩

/- ## Specification-side reference definitions -/

/-- Modelled from the spec: the date a numeric Excel serial denotes is
obtained by adding the leap-bug-adjusted serial, less one, as a
day-count to 1900-01-01, here literally as iterated calendar
succession. -/
def specSerialDate (serial : Nat) : CivDate :=
  let adjusted := if serial > 59 then serial - 1 else serial
  nextDay^[adjusted - 1] ⟨1900, 1, 1⟩

/-- The seven weekday names in Monday-first order. -/
def weekdayNames : List String :=
  ["Monday", "Tuesday", "Wednesday", "Thursday", "Friday", "Saturday", "Sunday"]

/-- Modelled from the spec: a days string is in Monday-first canonical
form when it is the slash-join of an ordered, de-duplicated selection of
the weekday names in Monday-first order. -/
def mondayFirstCanonical (s : String) : Bool :=
  let names := jsSplit (· = '/') s
  names = weekdayNames.filter fun w => names.contains w

/- ## Concrete witness inputs -/

/-- Sample raw grid with a header row and one enrolled course row. -/
def witnessGrid : List (List String) :=
  [["Course Listing", "Meeting Patterns", "Instructor", "Start Date", "End Date",
    "Registration Status"],
   ["CSE 4501 - Video Games", "Mon/Wed | 5:30 PM - 7:00 PM | Ridgley", "Dr. X", "45672",
    "45775", "Registered"]]

/-- Course record the extractor produces from `witnessGrid`. -/
def witnessCourse : Course :=
  { id := 1, title := "CSE 4501 - Video Games", days := "Monday/Wednesday", time := "5:30 PM",
    endTime := "7:00 PM", location := "Ridgley", instructor := "Dr. X",
    registrationStatus := "Registered", startDate := some "2025-01-15",
    endDate := some "2025-04-28" }

/-- Provider insert model that always succeeds, deriving the created
event from the submitted summary. -/
def witnessInsert : InsertFn := fun _ body => .ok ⟨"id-" ++ body.summary, body.summary⟩

/-- Sample course with complete data. -/
def wCourseA : Course :=
  { id := 1, title := "CSE 4501 - X", days := "Monday/Wednesday", time := "5:30 PM",
    endTime := "7:00 PM", location := "R", instructor := "I", registrationStatus := "Registered",
    startDate := some "2025-01-13", endDate := some "2025-05-02" }

/-- Sample course with a null start date. -/
def wCourseBad : Course :=
  { id := 2, title := "PHYS 1010 - Y", days := "Monday", time := "5:30 PM",
    endTime := "7:00 PM", location := "R", instructor := "I", registrationStatus := "Registered",
    startDate := none, endDate := some "2025-05-02" }

/-- Second sample course with complete data. -/
def wCourseB : Course :=
  { id := 3, title := "MATH 2200 - Z", days := "Friday", time := "9:00 AM",
    endTime := "10:00 AM", location := "R", instructor := "I",
    registrationStatus := "Registered", startDate := some "2025-01-17",
    endDate := some "2025-05-02" }

/-- Sample raw grid whose single course row lists Wednesday before
Monday in its meeting pattern. -/
def wGridDays : List (List String) :=
  [["Course Listing", "Meeting Patterns", "Instructor", "Start Date", "End Date",
    "Registration Status"],
   ["WXYZ 1234 - T", "Wed/Mon | 5:30 PM - 7:00 PM | Room", "Dr", "45672", "45775",
    "Registered"]]

/-- Result of the sample three-course `createEvents` call in which the
second course has a null start date. -/
def wCreateResult : CreateResult :=
  { events := [⟨"id-CSE 4501 - X", "CSE 4501 - X"⟩, ⟨"id-MATH 2200 - Z", "MATH 2200 - Z"⟩]
    errors := ["Course \"PHYS 1010 - Y\": Invalid date/time for course \"PHYS 1010 - Y\". Start: null 5:30 PM, End: 2025-05-02 7:00 PM"]
    eventIds := ["id-CSE 4501 - X", "id-MATH 2200 - Z"]
    batchId := "batch_123_abc" }

/- ## Calendar arithmetic lemmas -/

theorem daysInYear_pos (y : Nat) : 1 ≤ daysInYear y := by
  unfold daysInYear; split <;> omega

theorem daysInMonth_pos (y m : Nat) : 1 ≤ daysInMonth y m := by
  unfold daysInMonth; split
  · split <;> omega
  · split <;> omega

theorem yearSpan_ge (y0 k : Nat) : k ≤ yearSpan y0 k := by
  induction k generalizing y0 with
  | zero => simp [yearSpan]
  | succ k ih =>
    have h1 := daysInYear_pos y0
    have h2 := ih (y0 + 1)
    simp only [yearSpan]
    omega

theorem yearSpan_succ_back (y0 k : Nat) : yearSpan y0 (k + 1) = yearSpan y0 k + daysInYear (y0 + k) := by
  induction k generalizing y0 with
  | zero => simp [yearSpan]
  | succ k ih =>
    have hidx : y0 + 1 + k = y0 + (k + 1) := by omega
    have h1 := ih (y0 + 1)
    rw [hidx] at h1
    have h2 : yearSpan y0 (k + 1 + 1) = daysInYear y0 + yearSpan (y0 + 1) (k + 1) := rfl
    have h3 : yearSpan y0 (k + 1) = daysInYear y0 + yearSpan (y0 + 1) k := rfl
    rw [h2, h1, h3]
    omega

theorem monthSpan_add (y m a b : Nat) :
    monthSpan y m (a + b) = monthSpan y m a + monthSpan y (m + a) b := by
  induction a generalizing m with
  | zero => simp [monthSpan]
  | succ a ih =>
    have hidx : m + 1 + a = m + (a + 1) := by omega
    have h1 := ih (m + 1)
    rw [hidx] at h1
    have hswap : a + 1 + b = (a + b) + 1 := by omega
    rw [hswap]
    simp only [monthSpan]
    rw [h1]
    omega

theorem monthSpan_year (y : Nat) : monthSpan y 1 12 = daysInYear y := by
  cases h : isLeap y <;>
    simp [monthSpan, daysInMonth, daysInYear, h]

theorem stripYears_spec (k : Nat) :
    ∀ y0 r fuel, r < daysInYear (y0 + k) → k ≤ fuel →
      stripYears fuel y0 (yearSpan y0 k + r) = (y0 + k, r) := by
  induction k with
  | zero =>
    intro y0 r fuel hr _
    match fuel with
    | 0 => simp [stripYears, yearSpan]
    | f + 1 =>
      simp only [yearSpan, Nat.zero_add, stripYears]
      rw [if_pos (by simpa using hr)]
      simp
  | succ k ih =>
    intro y0 r fuel hr hf
    match fuel with
    | 0 => omega
    | f + 1 =>
      have hys : yearSpan y0 (k + 1) = daysInYear y0 + yearSpan (y0 + 1) k := rfl
      have h1 : ¬ (yearSpan y0 (k + 1) + r < daysInYear y0) := by omega
      simp only [stripYears]
      rw [if_neg h1]
      have heq : yearSpan y0 (k + 1) + r - daysInYear y0 = yearSpan (y0 + 1) k + r := by omega
      rw [heq, ih (y0 + 1) r f (by have h2 : y0 + 1 + k = y0 + (k + 1) := by omega
                                   rw [h2]; exact hr) (by omega)]
      have h3 : y0 + 1 + k = y0 + (k + 1) := by omega
      rw [h3]

theorem stripMonths_spec (k : Nat) :
    ∀ y m0 r fuel, r < daysInMonth y (m0 + k) → k ≤ fuel →
      stripMonths fuel y m0 (monthSpan y m0 k + r) = (m0 + k, r) := by
  induction k with
  | zero =>
    intro y m0 r fuel hr _
    match fuel with
    | 0 => simp [stripMonths, monthSpan]
    | f + 1 =>
      simp only [monthSpan, Nat.zero_add, stripMonths]
      rw [if_pos (by simpa using hr)]
      simp
  | succ k ih =>
    intro y m0 r fuel hr hf
    match fuel with
    | 0 => omega
    | f + 1 =>
      have hms : monthSpan y m0 (k + 1) = daysInMonth y m0 + monthSpan y (m0 + 1) k := rfl
      have h1 : ¬ (monthSpan y m0 (k + 1) + r < daysInMonth y m0) := by omega
      simp only [stripMonths]
      rw [if_neg h1]
      have heq : monthSpan y m0 (k + 1) + r - daysInMonth y m0 = monthSpan y (m0 + 1) k + r := by
        omega
      rw [heq, ih y (m0 + 1) r f (by have h2 : m0 + 1 + k = m0 + (k + 1) := by omega
                                     rw [h2]; exact hr) (by omega)]
      have h3 : m0 + 1 + k = m0 + (k + 1) := by omega
      rw [h3]

theorem monthSpan_lt_year (y m d : Nat) (hm1 : 1 ≤ m) (hm2 : m ≤ 12) (hd1 : 1 ≤ d)
    (hd2 : d ≤ daysInMonth y m) : monthSpan y 1 (m - 1) + (d - 1) < daysInYear y := by
  have hsplit : monthSpan y 1 12 = monthSpan y 1 (m - 1) + monthSpan y (1 + (m - 1)) (13 - m) := by
    have h12 : (m - 1) + (13 - m) = 12 := by omega
    rw [← h12, monthSpan_add]
  have hm : 1 + (m - 1) = m := by omega
  rw [hm] at hsplit
  have hstep : monthSpan y m (13 - m) = daysInMonth y m + monthSpan y (m + 1) (13 - m - 1) := by
    have h1 : 13 - m = (13 - m - 1) + 1 := by omega
    rw [h1]
    rfl
  have := monthSpan_year y
  omega

theorem civilOfDays_civilToDays (dt : CivDate) (h : validDate dt) :
    civilOfDays1900 (civilToDays1900 dt) = dt := by
  obtain ⟨y, m, d⟩ := dt
  obtain ⟨hy, hm1, hm2, hd1, hd2⟩ := h
  simp only at hy hm1 hm2 hd1 hd2
  have hyk : 1900 + (y - 1900) = y := by omega
  have hrlt : monthSpan y 1 (m - 1) + (d - 1) < daysInYear (1900 + (y - 1900)) := by
    rw [hyk]; exact monthSpan_lt_year y m d hm1 hm2 hd1 hd2
  have htot : civilToDays1900 ⟨y, m, d⟩ =
      yearSpan 1900 (y - 1900) + (monthSpan y 1 (m - 1) + (d - 1)) := by
    show yearSpan 1900 (y - 1900) + monthSpan y 1 (m - 1) + (d - 1) = _
    omega
  rw [htot]
  unfold civilOfDays1900
  have hfuel : y - 1900 ≤ yearSpan 1900 (y - 1900) + (monthSpan y 1 (m - 1) + (d - 1)) + 1 := by
    have h1 := yearSpan_ge 1900 (y - 1900)
    omega
  rw [stripYears_spec (y - 1900) 1900 _ _ hrlt hfuel, hyk]
  simp only []
  have hdm : d - 1 < daysInMonth y (1 + (m - 1)) := by
    have hmm : 1 + (m - 1) = m := by omega
    rw [hmm]; omega
  rw [stripMonths_spec (m - 1) y 1 (d - 1) 12 hdm (by omega)]
  simp only []
  have hmm : 1 + (m - 1) = m := by omega
  have hdd : d - 1 + 1 = d := by omega
  rw [hmm, hdd]

theorem validDate_mk (y m d : Nat) :
    validDate ⟨y, m, d⟩ ↔ 1900 ≤ y ∧ 1 ≤ m ∧ m ≤ 12 ∧ 1 ≤ d ∧ d ≤ daysInMonth y m :=
  Iff.rfl

theorem validDate_nextDay (dt : CivDate) (h : validDate dt) : validDate (nextDay dt) := by
  obtain ⟨y, m, d⟩ := dt
  rw [validDate_mk] at h
  obtain ⟨hy, hm1, hm2, hd1, hd2⟩ := h
  have hnd : nextDay ⟨y, m, d⟩ =
      if d < daysInMonth y m then ⟨y, m, d + 1⟩
      else if m < 12 then ⟨y, m + 1, 1⟩ else ⟨y + 1, 1, 1⟩ := rfl
  rw [hnd]
  split
  · rw [validDate_mk]; exact ⟨hy, hm1, hm2, by omega, by omega⟩
  · split
    · rw [validDate_mk]; exact ⟨hy, by omega, by omega, by omega, daysInMonth_pos _ _⟩
    · rw [validDate_mk]; exact ⟨by omega, by omega, by omega, by omega, daysInMonth_pos _ _⟩

theorem civilToDays_eqn (y m d : Nat) :
    civilToDays1900 ⟨y, m, d⟩ = yearSpan 1900 (y - 1900) + monthSpan y 1 (m - 1) + (d - 1) := rfl

theorem monthSpan_one (y m : Nat) : monthSpan y m 1 = daysInMonth y m := by
  simp [monthSpan]

theorem civilToDays_nextDay (dt : CivDate) (h : validDate dt) :
    civilToDays1900 (nextDay dt) = civilToDays1900 dt + 1 := by
  obtain ⟨y, m, d⟩ := dt
  obtain ⟨hy, hm1, hm2, hd1, hd2⟩ := h
  simp only at hy hm1 hm2 hd1 hd2
  have hnd : nextDay ⟨y, m, d⟩ =
      if d < daysInMonth y m then ⟨y, m, d + 1⟩
      else if m < 12 then ⟨y, m + 1, 1⟩ else ⟨y + 1, 1, 1⟩ := rfl
  rw [hnd]
  split
  · rw [civilToDays_eqn, civilToDays_eqn]
    omega
  · rename_i hnlt
    have hdeq : d = daysInMonth y m := by omega
    split
    · rename_i hmlt
      rw [civilToDays_eqn, civilToDays_eqn]
      have hsucc : monthSpan y 1 ((m - 1) + 1) =
          monthSpan y 1 (m - 1) + daysInMonth y m := by
        rw [monthSpan_add]
        have h2 : 1 + (m - 1) = m := by omega
        rw [h2, monthSpan_one]
      have h1 : m + 1 - 1 = (m - 1) + 1 := by omega
      rw [h1, hsucc]
      omega
    · rename_i hmge
      have hm12 : m = 12 := by omega
      subst hm12
      rw [civilToDays_eqn, civilToDays_eqn]
      have hys : yearSpan 1900 ((y - 1900) + 1) =
          yearSpan 1900 (y - 1900) + daysInYear y := by
        rw [yearSpan_succ_back]
        have h2 : 1900 + (y - 1900) = y := by omega
        rw [h2]
      have h1 : y + 1 - 1900 = (y - 1900) + 1 := by omega
      have hfull : monthSpan y 1 12 = daysInYear y := monthSpan_year y
      have hsplit : monthSpan y 1 (11 + 1) = monthSpan y 1 11 + daysInMonth y 12 := by
        rw [monthSpan_add]
        have h3 : (1 + 11 : Nat) = 12 := by omega
        rw [h3, monthSpan_one]
      have h4 : (11 + 1 : Nat) = 12 := by omega
      rw [h4] at hsplit
      have h5 : monthSpan (y + 1) 1 (1 - 1) = 0 := rfl
      have h6 : (12 - 1 : Nat) = 11 := by omega
      rw [h1, hys, h5, h6]
      omega

/- ## Extractor filter lemmas -/

theorem parseRow_mem (cmap : ColumnMap) (acc : List Course) (row : List String) (c : Course)
    (hc : c ∈ parseRow cmap acc row) : c ∈ acc ∨ isValidCourse c = true := by
  simp only [parseRow] at hc
  split at hc
  · exact Or.inl hc
  · split at hc
    · exact Or.inl hc
    · split at hc
      · rename_i hvalid
        rcases List.mem_append.mp hc with h | h
        · exact Or.inl h
        · right
          rw [List.mem_singleton.mp h]
          exact hvalid
      · exact Or.inl hc

theorem foldl_parseRow_mem (cmap : ColumnMap) (rows : List (List String)) :
    ∀ acc c, c ∈ rows.foldl (parseRow cmap) acc → c ∈ acc ∨ isValidCourse c = true := by
  induction rows with
  | nil => intro acc c hc; exact Or.inl hc
  | cons r rs ih =>
    intro acc c hc
    rcases ih (parseRow cmap acc r) c hc with h | h
    · exact parseRow_mem cmap acc r c h
    · exact Or.inr h

theorem mem_parseWorkdayData_valid (data : List (List String)) (c : Course)
    (hc : c ∈ parseWorkdayData data) : isValidCourse c = true := by
  simp only [parseWorkdayData] at hc
  split at hc
  · simp at hc
  · rcases foldl_parseRow_mem _ _ _ _ hc with h | h
    · simp at h
    · exact h

theorem days_iterate (d : Nat) :
    validDate (nextDay^[d] ⟨1900, 1, 1⟩) ∧ civilToDays1900 (nextDay^[d] ⟨1900, 1, 1⟩) = d ∧
      civilOfDays1900 d = nextDay^[d] ⟨1900, 1, 1⟩ := by
  induction d with
  | zero =>
    refine ⟨by decide, by decide, ?_⟩
    decide
  | succ d ih =>
    obtain ⟨hv, hc, _⟩ := ih
    rw [Function.iterate_succ_apply']
    refine ⟨validDate_nextDay _ hv, ?_, ?_⟩
    · rw [civilToDays_nextDay _ hv, hc]
    · have h1 : d + 1 = civilToDays1900 (nextDay (nextDay^[d] ⟨1900, 1, 1⟩)) := by
        rw [civilToDays_nextDay _ hv, hc]
      rw [h1, civilOfDays_civilToDays _ (validDate_nextDay _ hv)]

/- ## Claim C1 -/

/-- C1: for every raw grid, the extraction function returns only Course
records whose title matches the anchored course-code pattern of two to
four uppercase letters, whitespace and four digits, and whose
registration status does not contain, case-insensitively, unregistered,
dropped or withdrawn; a row failing either condition never contributes a
Course record to the output. -/
theorem C1_extract_only_valid_courses (data : List (List String)) (c : Course)
    (hc : c ∈ parseWorkdayData data) :
    courseCodeTest c.title = true ∧ statusExcluded c.registrationStatus = false := by
  have h := mem_parseWorkdayData_valid data c hc
  unfold isValidCourse at h
  rcases (Bool.and_eq_true _ _).mp h with ⟨h1, h2⟩
  exact ⟨h1, by simpa using h2⟩

set_option maxRecDepth 20000 in
/-- Witness for C1: the sample grid yields a course, and the theorem
applies to it. -/
theorem C1_witness :
    witnessCourse ∈ parseWorkdayData witnessGrid ∧
      courseCodeTest witnessCourse.title = true ∧
      statusExcluded witnessCourse.registrationStatus = false := by
  have hmem : witnessCourse ∈ parseWorkdayData witnessGrid := by
    rw [show parseWorkdayData witnessGrid = [witnessCourse] from rfl]
    exact List.mem_singleton_self _
  exact ⟨hmem, C1_extract_only_valid_courses witnessGrid witnessCourse hmem⟩

/- ## Claim C4 -/

/-- C4: convertExcelDate maps a numeric serial to the date reached by
adding the serial, adjusted down by exactly one above 59 and otherwise
left alone, less one, as a day-count to 1900-01-01, rendered as an ISO
date string; serial 1 maps to 1900-01-01, and a non-numeric input yields
null.  The spec-side date is literally iterated calendar succession from
1900-01-01. -/
theorem C4_convertExcelDate_correct :
    (∀ s n, jsParseFloatInt s = some n → 1 ≤ n →
      convertExcelDate s =
        some (jsStringNat (specSerialDate n.toNat).year ++ "-" ++
          padZero 2 (jsStringNat (specSerialDate n.toNat).month) ++ "-" ++
          padZero 2 (jsStringNat (specSerialDate n.toNat).day))) ∧
    (∀ s, jsParseFloatInt s = none → convertExcelDate s = none) ∧
    convertExcelDate "1" = some "1900-01-01" ∧
    convertExcelDate "59" = some "1900-02-28" ∧
    convertExcelDate "60" = some "1900-02-28" ∧
    convertExcelDate "61" = some "1900-03-01" := by
  refine ⟨?_, ?_, by decide, by decide, by decide, by decide⟩
  · intro s n hs hn
    unfold convertExcelDate
    rw [hs]
    simp only []
    have hidx : ((if n > 59 then n - 1 else n) - 1).toNat =
        (if n.toNat > 59 then n.toNat - 1 else n.toNat) - 1 := by
      split <;> split <;> omega
    rw [hidx]
    have hiter := (days_iterate ((if n.toNat > 59 then n.toNat - 1 else n.toNat) - 1)).2.2
    unfold specSerialDate
    rw [hiter]
  · intro s hs
    unfold convertExcelDate
    rw [hs]

/- ## First-match scan lemmas -/

theorem contains_iff_mem (l : List Nat) (a : Nat) : l.contains a = true ↔ a ∈ l := by
  simp [List.contains]

theorem find?_range'_min (p : Nat → Bool) :
    ∀ len s j, (List.range' s len).find? p = some j →
      p j = true ∧ s ≤ j ∧ j < s + len ∧ ∀ i, s ≤ i → i < j → p i = false := by
  intro len
  induction len with
  | zero => intro s j h; simp [List.range'] at h
  | succ len ih =>
    intro s j h
    have hr : List.range' s (len + 1) = s :: List.range' (s + 1) len := rfl
    rw [hr] at h
    simp only [List.find?] at h
    cases hp : p s with
    | true =>
      rw [hp] at h
      simp at h
      subst h
      exact ⟨hp, Nat.le_refl s, by omega, fun i hi1 hi2 => absurd hi1 (by omega)⟩
    | false =>
      rw [hp] at h
      obtain ⟨hj, h1, h2, hmin⟩ := ih (s + 1) j h
      refine ⟨hj, by omega, by omega, ?_⟩
      intro i hi1 hi2
      rcases Nat.eq_or_lt_of_le hi1 with rfl | hlt
      · exact hp
      · exact hmin i (by omega) hi2

theorem find?_range'_exists (p : Nat → Bool) (len s : Nat)
    (h : ∃ j, s ≤ j ∧ j < s + len ∧ p j = true) :
    ∃ k, (List.range' s len).find? p = some k := by
  obtain ⟨j, hj1, hj2, hj3⟩ := h
  cases hf : (List.range' s len).find? p with
  | some k => exact ⟨k, rfl⟩
  | none =>
    exfalso
    have := List.find?_eq_none.mp hf j (by
      rw [List.mem_range'_1]
      exact ⟨hj1, hj2⟩)
    rw [hj3] at this
    exact this rfl

theorem jsGetDay_eqn (x : Nat) : jsGetDay x = (x + 1) % 7 := rfl

theorem scanCore (targets : List Nat) (ht : targets ≠ []) (h7 : ∀ t ∈ targets, t < 7)
    (dt : CivDate) (hv : validDate dt) (R : String)
    (hR : R =
      if targets.contains (jsGetDay (civilToDays1900 dt)) = true then fmtPad4 dt
      else
        match (List.range' 1 7).find?
            (fun o => targets.contains (jsGetDay (civilToDays1900 dt + o))) with
        | some o => fmtPad4 (civilOfDays1900 (civilToDays1900 dt + o))
        | none => fmtPad4 dt) :
    ∃ k, k ≤ 6 ∧ targets.contains (jsGetDay (civilToDays1900 dt + k)) = true ∧
      (∀ j, j < k → targets.contains (jsGetDay (civilToDays1900 dt + j)) = false) ∧
      R = fmtPad4 (civilOfDays1900 (civilToDays1900 dt + k)) := by
  by_cases hc : targets.contains (jsGetDay (civilToDays1900 dt)) = true
  · refine ⟨0, by omega, by simpa using hc, fun j hj => absurd hj (by omega), ?_⟩
    rw [hR, if_pos hc]
    rw [Nat.add_zero, civilOfDays_civilToDays dt hv]
  · obtain ⟨t, htmem⟩ := List.exists_mem_of_ne_nil targets ht
    have ht7 : t < 7 := h7 t htmem
    have hwne : jsGetDay (civilToDays1900 dt) ≠ t := by
      intro heq
      exact hc (by rw [heq]; exact (contains_iff_mem targets t).mpr htmem)
    have hw := jsGetDay_eqn (civilToDays1900 dt)
    have hj0 : ∃ j, 1 ≤ j ∧ j ≤ 6 ∧
        targets.contains (jsGetDay (civilToDays1900 dt + j)) = true := by
      refine ⟨(t + 7 - jsGetDay (civilToDays1900 dt)) % 7, by omega, by omega, ?_⟩
      have houter := jsGetDay_eqn
        (civilToDays1900 dt + (t + 7 - jsGetDay (civilToDays1900 dt)) % 7)
      rw [houter]
      have heq : (civilToDays1900 dt + (t + 7 - jsGetDay (civilToDays1900 dt)) % 7 + 1) % 7
          = t := by omega
      rw [heq]
      exact (contains_iff_mem targets t).mpr htmem
    obtain ⟨j0, hj01, hj02, hj03⟩ := hj0
    obtain ⟨k, hk⟩ := find?_range'_exists
      (fun o => targets.contains (jsGetDay (civilToDays1900 dt + o))) 7 1
      ⟨j0, hj01, by omega, hj03⟩
    obtain ⟨hpk, hk1, hk2, hkmin⟩ := find?_range'_min
      (fun o => targets.contains (jsGetDay (civilToDays1900 dt + o))) 7 1 k hk
    have hk6 : k ≤ 6 := by
      by_contra hgt
      have : j0 < k := by omega
      have := hkmin j0 hj01 this
      rw [hj03] at this
      simp at this
    refine ⟨k, hk6, hpk, ?_, ?_⟩
    · intro j hj
      rcases Nat.eq_zero_or_pos j with rfl | hpos
      · rw [Nat.add_zero]
        simpa using hc
      · exact hkmin j hpos hj
    · rw [hR, if_neg hc, hk]

theorem targetIndicesOf_lt7 (daysStr : String) : ∀ x ∈ targetIndicesOf daysStr, x < 7 := by
  intro x hx
  unfold targetIndicesOf at hx
  split at hx
  · simp at hx
  · rcases List.mem_filterMap.mp hx with ⟨s, _, hsome⟩
    unfold dayNameIdx at hsome
    split_ifs at hsome <;> simp_all <;> omega

/- ## Claim C3 -/

set_option maxRecDepth 40000 in
/-- C3: getFirstMeetingDate returns the earliest date on or after the
parsed start date, or today when the start date is null, whose weekday
lies in the parsed day-set, scanning at most six days forward and
returning the start date itself when its weekday already matches; an
empty day-set yields the formatted current date; and the concrete
instance of a Tuesday start with a Monday and Wednesday day-set yields
the following Wednesday. -/
theorem C3_getFirstMeetingDate_correct :
    (∀ today startDateStr daysStr, targetIndicesOf daysStr = [] →
      getFirstMeetingDate today startDateStr daysStr = fmtPad4 today) ∧
    (∀ today s dt daysStr, targetIndicesOf daysStr ≠ [] → s ≠ "" →
      parseStartCivil s = some dt → validDate dt →
      ∃ k, k ≤ 6 ∧
        (targetIndicesOf daysStr).contains (jsGetDay (civilToDays1900 dt + k)) = true ∧
        (∀ j, j < k →
          (targetIndicesOf daysStr).contains (jsGetDay (civilToDays1900 dt + j)) = false) ∧
        getFirstMeetingDate today (some s) daysStr =
          fmtPad4 (civilOfDays1900 (civilToDays1900 dt + k))) ∧
    (∀ today daysStr, targetIndicesOf daysStr ≠ [] → validDate today →
      ∃ k, k ≤ 6 ∧
        (targetIndicesOf daysStr).contains (jsGetDay (civilToDays1900 today + k)) = true ∧
        (∀ j, j < k →
          (targetIndicesOf daysStr).contains (jsGetDay (civilToDays1900 today + j)) = false) ∧
        getFirstMeetingDate today none daysStr =
          fmtPad4 (civilOfDays1900 (civilToDays1900 today + k))) ∧
    getFirstMeetingDate ⟨2025, 10, 11⟩ (some "2025-01-14") "Monday/Wednesday" = "2025-01-15" := by
  refine ⟨?_, ?_, ?_, ?_⟩
  · intro today startDateStr daysStr hemp
    simp only [getFirstMeetingDate]
    rw [hemp]
    rfl
  · intro today s dt daysStr hne hs hp hv
    have hie : (targetIndicesOf daysStr).isEmpty = false := by
      cases hx : targetIndicesOf daysStr with
      | nil => exact absurd hx hne
      | cons a l => rfl
    have hR : getFirstMeetingDate today (some s) daysStr =
        (if (targetIndicesOf daysStr).contains (jsGetDay (civilToDays1900 dt)) = true
         then fmtPad4 dt
         else
           match (List.range' 1 7).find?
               (fun o => (targetIndicesOf daysStr).contains
                 (jsGetDay (civilToDays1900 dt + o))) with
           | some o => fmtPad4 (civilOfDays1900 (civilToDays1900 dt + o))
           | none => fmtPad4 dt) := by
      simp only [getFirstMeetingDate, hie, Bool.false_eq_true, if_false, Option.bind]
      rw [if_neg hs, hp]
      simp only [Option.getD]
    exact scanCore (targetIndicesOf daysStr) hne (targetIndicesOf_lt7 daysStr) dt hv _ hR
  · intro today daysStr hne hv
    have hie : (targetIndicesOf daysStr).isEmpty = false := by
      cases hx : targetIndicesOf daysStr with
      | nil => exact absurd hx hne
      | cons a l => rfl
    have hR : getFirstMeetingDate today none daysStr =
        (if (targetIndicesOf daysStr).contains (jsGetDay (civilToDays1900 today)) = true
         then fmtPad4 today
         else
           match (List.range' 1 7).find?
               (fun o => (targetIndicesOf daysStr).contains
                 (jsGetDay (civilToDays1900 today + o))) with
           | some o => fmtPad4 (civilOfDays1900 (civilToDays1900 today + o))
           | none => fmtPad4 today) := by
      simp only [getFirstMeetingDate, hie, Bool.false_eq_true, if_false, Option.bind,
        Option.getD]
    exact scanCore (targetIndicesOf daysStr) hne (targetIndicesOf_lt7 daysStr) today hv _ hR
  · rfl

/- ## Substring lemmas -/

theorem listHasPref_append (n m : List Char) : listHasPref n (n ++ m) = true := by
  induction n with
  | nil => rfl
  | cons c cs ih => simp [listHasPref, ih]

theorem listHasSub_append_left (n s : List Char) : listHasSub n (n ++ s) = true := by
  cases n with
  | nil => cases s <;> simp [listHasSub, listHasPref]
  | cons c cs =>
    simp only [listHasSub, Bool.or_eq_true]
    exact Or.inl (listHasPref_append (c :: cs) s)

theorem listHasSub_middle (p n s : List Char) : listHasSub n (p ++ (n ++ s)) = true := by
  induction p with
  | nil => simpa using listHasSub_append_left n s
  | cons x xs ih => simp [listHasSub, ih]

theorem jsIncludes_middle (p t s : String) : jsIncludes (p ++ t ++ s) t = true := by
  unfold jsIncludes
  have h : (p ++ t ++ s).toList = p.toList ++ (t.toList ++ s.toList) := by
    show (p ++ t ++ s).data = p.data ++ (t.data ++ s.data)
    rw [String.data_append, String.data_append, List.append_assoc]
  rw [h]
  exact listHasSub_middle p.toList t.toList s.toList

/- ## Create-events fold lemmas -/

theorem createStep_spec (insert : InsertFn) (calId b : String) (acc : CreateResult)
    (course : Course) :
    (createStep insert calId b acc course).events.length +
        (createStep insert calId b acc course).errors.length =
      acc.events.length + acc.errors.length + 1 ∧
    (createStep insert calId b acc course).batchId = acc.batchId ∧
    ∀ e ∈ (createStep insert calId b acc course).errors,
      e ∈ acc.errors ∨ ∃ msg, createEventFromCourse insert course calId b = .error msg ∧
        e = "Course \"" ++ course.title ++ "\": " ++ msg := by
  unfold createStep
  cases h : createEventFromCourse insert course calId b with
  | ok ev =>
    refine ⟨by simp; omega, rfl, ?_⟩
    intro e he
    exact Or.inl he
  | error msg =>
    refine ⟨by simp; omega, rfl, ?_⟩
    intro e he
    rcases List.mem_append.mp he with h1 | h1
    · exact Or.inl h1
    · exact Or.inr ⟨msg, rfl, List.mem_singleton.mp h1⟩

theorem createFold_spec (insert : InsertFn) (calId b : String) :
    ∀ (courses : List Course) (acc : CreateResult),
      (courses.foldl (createStep insert calId b) acc).events.length +
          (courses.foldl (createStep insert calId b) acc).errors.length =
        acc.events.length + acc.errors.length + courses.length ∧
      (courses.foldl (createStep insert calId b) acc).batchId = acc.batchId ∧
      ∀ e ∈ (courses.foldl (createStep insert calId b) acc).errors,
        e ∈ acc.errors ∨ ∃ c ∈ courses, ∃ msg,
          createEventFromCourse insert c calId b = .error msg ∧
          e = "Course \"" ++ c.title ++ "\": " ++ msg := by
  intro courses
  induction courses with
  | nil =>
    intro acc
    refine ⟨by simp, rfl, fun e he => Or.inl he⟩
  | cons c cs ih =>
    intro acc
    obtain ⟨hstep, hbid, herr⟩ := createStep_spec insert calId b acc c
    obtain ⟨ihlen, ihbid, iherr⟩ := ih (createStep insert calId b acc c)
    refine ⟨by simp only [List.foldl_cons, List.length_cons]; omega,
      by simp only [List.foldl_cons]; rw [ihbid, hbid], ?_⟩
    intro e he
    simp only [List.foldl_cons] at he
    rcases iherr e he with h1 | ⟨c', hc', msg, hmsg, heq⟩
    · rcases herr e h1 with h2 | ⟨msg, hmsg, heq⟩
      · exact Or.inl h2
      · exact Or.inr ⟨c, List.mem_cons_self c cs, msg, hmsg, heq⟩
    · exact Or.inr ⟨c', List.mem_cons_of_mem c hc', msg, hmsg, heq⟩

set_option maxRecDepth 20000 in
/-- Witness for C3: the start-date conjunct applied at the concrete
Tuesday start date with the Monday and Wednesday day-set. -/
theorem C3_witness :
    targetIndicesOf "Monday/Wednesday" ≠ [] ∧ "2025-01-14" ≠ "" ∧
      parseStartCivil "2025-01-14" = some ⟨2025, 1, 14⟩ ∧ validDate ⟨2025, 1, 14⟩ ∧
      (∃ k, k ≤ 6 ∧
        (targetIndicesOf "Monday/Wednesday").contains
          (jsGetDay (civilToDays1900 ⟨2025, 1, 14⟩ + k)) = true ∧
        (∀ j, j < k →
          (targetIndicesOf "Monday/Wednesday").contains
            (jsGetDay (civilToDays1900 ⟨2025, 1, 14⟩ + j)) = false) ∧
        getFirstMeetingDate ⟨2025, 10, 11⟩ (some "2025-01-14") "Monday/Wednesday" =
          fmtPad4 (civilOfDays1900 (civilToDays1900 ⟨2025, 1, 14⟩ + k))) :=
  ⟨by decide, by decide, by decide, by decide,
    C3_getFirstMeetingDate_correct.2.1 ⟨2025, 10, 11⟩ "2025-01-14" ⟨2025, 1, 14⟩
      "Monday/Wednesday" (by decide) (by decide) (by decide) (by decide)⟩

/- ## Event-body and delete-fold lemmas -/

theorem buildEventBody_ok (course : Course) (b : String) (body : EventBody)
    (h : buildEventBody course b = .ok body) :
    body.batchId = jsOr b "unknown" ∧ body.eventStart.timeZone = "America/Chicago" ∧
      body.eventEnd.timeZone = "America/Chicago" ∧
      parseDateTime course.startDate course.time = some body.eventStart.dateTime ∧
      parseDateTime course.startDate course.endTime = some body.eventEnd.dateTime := by
  simp only [buildEventBody] at h
  cases h1 : parseDateTime course.startDate course.time with
  | none => rw [h1] at h; cases h2 : parseDateTime course.startDate course.endTime <;>
      rw [h2] at h <;> simp at h
  | some s =>
    rw [h1] at h
    cases h2 : parseDateTime course.startDate course.endTime with
    | none => rw [h2] at h; simp at h
    | some e =>
      rw [h2] at h
      cases h3 : getRecurrenceRule course.days course.startDate course.endDate with
      | none => rw [h3] at h; simp at h
      | some rec =>
        rw [h3] at h
        simp only [Except.ok.injEq] at h
        subst h
        exact ⟨rfl, rfl, rfl, rfl, rfl⟩

theorem deleteStep_counts (delE : String → String → Except String Unit) (calId : String)
    (acc : List String × List String) (event : GEvent) :
    (deleteStep delE calId acc event).1.length + (deleteStep delE calId acc event).2.length =
      acc.1.length + acc.2.length + 1 := by
  unfold deleteStep
  cases delE calId event.id <;> simp <;> omega

theorem deleteFold_counts (delE : String → String → Except String Unit) (calId : String) :
    ∀ (events : List GEvent) (acc : List String × List String),
      (events.foldl (deleteStep delE calId) acc).1.length +
          (events.foldl (deleteStep delE calId) acc).2.length =
        acc.1.length + acc.2.length + events.length := by
  intro events
  induction events with
  | nil => intro acc; simp
  | cons e es ih =>
    intro acc
    have h1 := deleteStep_counts delE calId acc e
    have h2 := ih (deleteStep delE calId acc e)
    simp only [List.foldl_cons, List.length_cons]
    omega

theorem deleteByBatch_totalFound (listE : ListQuery → List GEvent)
    (delE : String → String → Except String Unit) (batchId calendarId : String) :
    (deleteEventsByBatch listE delE batchId calendarId).totalFound =
      (listE ⟨calendarId, "batchId=" ++ batchId, 100, false⟩).length := rfl

theorem deleteByBatch_counts (listE : ListQuery → List GEvent)
    (delE : String → String → Except String Unit) (batchId calendarId : String) :
    (deleteEventsByBatch listE delE batchId calendarId).deletedCount +
        (deleteEventsByBatch listE delE batchId calendarId).errors.length =
      (deleteEventsByBatch listE delE batchId calendarId).totalFound := by
  have h := deleteFold_counts delE calendarId
    (listE ⟨calendarId, "batchId=" ++ batchId, 100, false⟩) ([], [])
  simpa using h

/- ## Claim C2 -/

/-- C2: with valid tokens, createEvents attempts every course
independently: created events plus error strings count up to the number
of input courses, every error string arises from one failing course and
embeds that course title as a substring; on the concrete three-course
list in which exactly one course has a null start date, it creates two
events and one error that references the failing course title. -/
theorem C2_createEvents_partial_success :
    (∀ insert courses calendarId batchId now rand r,
      createEvents true insert courses calendarId batchId now rand = .ok r →
      r.events.length + r.errors.length = courses.length ∧
      ∀ e ∈ r.errors, ∃ c ∈ courses, ∃ msg,
        createEventFromCourse insert c calendarId (effectiveBatchId batchId now rand) =
          .error msg ∧
        e = "Course \"" ++ c.title ++ "\": " ++ msg ∧ jsIncludes e c.title = true) ∧
    (createEvents true witnessInsert [wCourseA, wCourseBad, wCourseB] "primary" none "123"
        "abc" = .ok wCreateResult ∧
      wCreateResult.events.length = 2 ∧ wCreateResult.errors.length = 1 ∧
      jsIncludes (wCreateResult.errors.getD 0 "") wCourseBad.title = true) := by
  constructor
  · intro insert courses calendarId batchId now rand r h
    have hdef : createEvents true insert courses calendarId batchId now rand =
        .ok (courses.foldl
          (createStep insert calendarId (effectiveBatchId batchId now rand))
          ⟨[], [], [], effectiveBatchId batchId now rand⟩) := rfl
    rw [hdef] at h
    simp only [Except.ok.injEq] at h
    subst h
    obtain ⟨hlen, _, herr⟩ := createFold_spec insert calendarId
      (effectiveBatchId batchId now rand) courses ⟨[], [], [], effectiveBatchId batchId now rand⟩
    refine ⟨by simpa using hlen, ?_⟩
    intro e he
    rcases herr e he with h1 | ⟨c, hc, msg, hmsg, heq⟩
    · simp at h1
    · refine ⟨c, hc, msg, hmsg, heq, ?_⟩
      have heq2 : e = "Course \"" ++ c.title ++ ("\": " ++ msg) := by
        rw [heq, String.append_assoc]
      rw [heq2]
      exact jsIncludes_middle "Course \"" c.title ("\": " ++ msg)
  · exact ⟨by rfl, by decide, by decide, by decide⟩

/-- Witness for C2: the general conjunct applied to the sample call. -/
theorem C2_witness :
    createEvents true witnessInsert [wCourseA, wCourseBad, wCourseB] "primary" none "123" "abc"
        = .ok wCreateResult ∧
      (wCreateResult.events.length + wCreateResult.errors.length =
          [wCourseA, wCourseBad, wCourseB].length ∧
        ∀ e ∈ wCreateResult.errors, ∃ c ∈ [wCourseA, wCourseBad, wCourseB], ∃ msg,
          createEventFromCourse witnessInsert c "primary" (effectiveBatchId none "123" "abc") =
            .error msg ∧
          e = "Course \"" ++ c.title ++ "\": " ++ msg ∧ jsIncludes e c.title = true) :=
  ⟨by rfl,
    C2_createEvents_partial_success.1 witnessInsert [wCourseA, wCourseBad, wCourseB] "primary"
      none "123" "abc" wCreateResult (by rfl)⟩

/- ## Claim C7 -/

/-- C7: one batch identifier is in effect for a whole createEvents call,
the caller-supplied one when given and a generated timestamp-plus-random
one otherwise; it is never empty, the returned record reports it, and
every event body submitted during the call carries it as the private
batch-identifier extended property. -/
theorem C7_batch_id_metadata :
    (∀ hasTokens insert courses calendarId batchId now rand r,
      createEvents hasTokens insert courses calendarId batchId now rand = .ok r →
      r.batchId = effectiveBatchId batchId now rand) ∧
    (∀ s now rand, s ≠ "" → effectiveBatchId (some s) now rand = s) ∧
    (∀ now rand, effectiveBatchId none now rand = genBatchId now rand) ∧
    (∀ batchId now rand, effectiveBatchId batchId now rand ≠ "") ∧
    (∀ courses batchId now rand body,
      body ∈ submittedBodies courses (effectiveBatchId batchId now rand) →
      body.batchId = effectiveBatchId batchId now rand) := by
  have hgen : ∀ now rand, genBatchId now rand ≠ "" := by
    intro now rand h
    have := congrArg String.length h
    simp only [genBatchId, String.length_append] at this
    have h6 : ("batch_".length : Nat) = 6 := by decide
    have h7 : ("_".length : Nat) = 1 := by decide
    have h8 : ("".length : Nat) = 0 := by decide
    omega
  have heff : ∀ batchId now rand, effectiveBatchId batchId now rand ≠ "" := by
    intro batchId now rand
    cases batchId with
    | none => exact hgen now rand
    | some s =>
      show (if s = "" then genBatchId now rand else s) ≠ ""
      split
      · exact hgen now rand
      · rename_i hs
        exact hs
  refine ⟨?_, ?_, fun now rand => rfl, heff, ?_⟩
  · intro hasTokens insert courses calendarId batchId now rand r h
    cases hasTokens with
    | false => simp [createEvents] at h
    | true =>
      have hdef : createEvents true insert courses calendarId batchId now rand =
          .ok (courses.foldl
            (createStep insert calendarId (effectiveBatchId batchId now rand))
            ⟨[], [], [], effectiveBatchId batchId now rand⟩) := rfl
      rw [hdef] at h
      simp only [Except.ok.injEq] at h
      subst h
      obtain ⟨_, hbid, _⟩ := createFold_spec insert calendarId
        (effectiveBatchId batchId now rand) courses
        ⟨[], [], [], effectiveBatchId batchId now rand⟩
      exact hbid
  · intro s now rand hs
    show (if s = "" then genBatchId now rand else s) = s
    rw [if_neg hs]
  · intro courses batchId now rand body hmem
    rcases List.mem_filterMap.mp hmem with ⟨c, _, hopt⟩
    have hok : buildEventBody c (effectiveBatchId batchId now rand) = .ok body := by
      cases hb : buildEventBody c (effectiveBatchId batchId now rand) with
      | ok b2 => rw [hb] at hopt; simp [Except.toOption] at hopt; rw [hopt]
      | error msg => rw [hb] at hopt; simp [Except.toOption] at hopt
    have := (buildEventBody_ok c (effectiveBatchId batchId now rand) body hok).1
    rw [this]
    unfold jsOr
    rw [if_neg (heff batchId now rand)]

/-- Witness for C7: the sample call reports the generated identifier and
its submitted bodies carry it. -/
theorem C7_witness :
    createEvents true witnessInsert [wCourseA, wCourseBad, wCourseB] "primary" none "123" "abc"
        = .ok wCreateResult ∧
      wCreateResult.batchId = effectiveBatchId none "123" "abc" ∧
      (∃ body, body ∈ submittedBodies [wCourseA, wCourseBad, wCourseB]
          (effectiveBatchId none "123" "abc") ∧
        body.batchId = effectiveBatchId none "123" "abc") := by
  refine ⟨by rfl, ?_, ?_⟩
  · exact C7_batch_id_metadata.1 true witnessInsert [wCourseA, wCourseBad, wCourseB] "primary"
      none "123" "abc" wCreateResult (by rfl)
  · have hne : submittedBodies [wCourseA, wCourseBad, wCourseB]
        (effectiveBatchId none "123" "abc") ≠ [] := by decide
    obtain ⟨b, hb⟩ := List.exists_mem_of_ne_nil _ hne
    exact ⟨b, hb,
      C7_batch_id_metadata.2.2.2.2 [wCourseA, wCourseBad, wCourseB] none "123" "abc" b hb⟩

/- ## Claim C8 -/

/-- C8: deleteEventsByBatch deletes each found event independently,
reporting both the number found and the number deleted so that the
deleted count plus the error count always equals the total found; a
batch identifier matching zero events yields zero counts and an empty
error list rather than an exception. -/
theorem C8_deleteByBatch_partial_failure :
    (∀ listE delE batchId calendarId,
      (deleteEventsByBatch listE delE batchId calendarId).totalFound =
        (listE ⟨calendarId, "batchId=" ++ batchId, 100, false⟩).length) ∧
    (∀ listE delE batchId calendarId,
      (deleteEventsByBatch listE delE batchId calendarId).deletedCount +
          (deleteEventsByBatch listE delE batchId calendarId).errors.length =
        (deleteEventsByBatch listE delE batchId calendarId).totalFound) ∧
    (∀ listE delE batchId calendarId,
      listE ⟨calendarId, "batchId=" ++ batchId, 100, false⟩ = [] →
      deleteEventsByBatch listE delE batchId calendarId = ⟨0, [], [], 0⟩) := by
  refine ⟨deleteByBatch_totalFound, deleteByBatch_counts, ?_⟩
  intro listE delE batchId calendarId h
  simp only [deleteEventsByBatch]
  rw [h]
  rfl

/-- Witness for C8: the zero-match conjunct applied to a provider that
finds nothing. -/
theorem C8_witness :
    (fun (_ : ListQuery) => ([] : List GEvent)) ⟨"primary", "batchId=" ++ "b1", 100, false⟩
        = [] ∧
      deleteEventsByBatch (fun _ => []) (fun _ _ => .ok ()) "b1" "primary" = ⟨0, [], [], 0⟩ :=
  ⟨rfl, C8_deleteByBatch_partial_failure.2.2 (fun _ => []) (fun _ _ => .ok ()) "b1" "primary" rfl⟩

/- ## Claim C10 -/

/-- C10: deleteEventsByBatch issues a single list query with a fixed
page size of 100 and follows no pagination, so under the provider
contract that a page never exceeds the requested maximum, both the total
found and the deleted count are at most 100. -/
theorem C10_delete_page_cap (listE : ListQuery → List GEvent)
    (delE : String → String → Except String Unit) (batchId calendarId : String)
    (hcap : ∀ q, (listE q).length ≤ q.maxResults) :
    (deleteEventsByBatch listE delE batchId calendarId).totalFound ≤ 100 ∧
      (deleteEventsByBatch listE delE batchId calendarId).deletedCount ≤ 100 := by
  have h1 := deleteByBatch_totalFound listE delE batchId calendarId
  have h2 := deleteByBatch_counts listE delE batchId calendarId
  have h3 : (listE ⟨calendarId, "batchId=" ++ batchId, 100, false⟩).length ≤ 100 :=
    hcap ⟨calendarId, "batchId=" ++ batchId, 100, false⟩
  constructor
  · omega
  · omega

/-- Witness for C10: the cap theorem applied to the empty provider. -/
theorem C10_witness :
    (∀ q : ListQuery, ((fun (_ : ListQuery) => ([] : List GEvent)) q).length ≤ q.maxResults) ∧
      (deleteEventsByBatch (fun _ => []) (fun _ _ => .ok ()) "b1" "primary").totalFound ≤ 100 ∧
      (deleteEventsByBatch (fun _ => []) (fun _ _ => .ok ()) "b1" "primary").deletedCount ≤ 100 :=
  ⟨fun q => by simp,
    C10_delete_page_cap (fun _ => []) (fun _ _ => .ok ()) "b1" "primary" (fun q => by simp)⟩

/- ## Day-string shape lemmas -/

theorem dayFragNames_mem (part : String) : ∀ n ∈ dayFragNames part, n ∈ weekdayNames := by
  intro n hn
  unfold dayFragNames at hn
  simp only [List.mem_append] at hn
  unfold weekdayNames
  rcases hn with ((((((h | h) | h) | h) | h) | h) | h) <;>
    (revert h; split <;> intro h <;> simp_all)

theorem singleDayName_mem (s : String) : singleDayName s ∈ weekdayNames := by
  unfold singleDayName weekdayNames
  split_ifs <;> simp

theorem parseMeetingPatterns_days_eqn (mp : String) :
    (parseMeetingPatterns mp).days =
      (if jsIncludes (((jsSplit (· = '|') mp).map jsTrim).getD 0 "") "/" then
        String.intercalate "/"
          ((jsSplit (· = '/') (((jsSplit (· = '|') mp).map jsTrim).getD 0 "")).flatMap
            dayFragNames)
      else singleDayName (((jsSplit (· = '|') mp).map jsTrim).getD 0 "")) := by
  simp only [parseMeetingPatterns]
  split
  · split <;> rfl
  · rfl

theorem parseMeetingPatterns_days (mp : String) :
    (parseMeetingPatterns mp).days = "" ∨
      ∃ names : List String, names ≠ [] ∧ (∀ n ∈ names, n ∈ weekdayNames) ∧
        (parseMeetingPatterns mp).days = String.intercalate "/" names := by
  rw [parseMeetingPatterns_days_eqn]
  split
  · cases hn : (jsSplit (· = '/') (((jsSplit (· = '|') mp).map jsTrim).getD 0 "")).flatMap
        dayFragNames with
    | nil => left; rfl
    | cons a l =>
      right
      refine ⟨a :: l, by simp, ?_, rfl⟩
      intro n hmem
      rw [← hn] at hmem
      rcases List.mem_flatMap.mp hmem with ⟨part, _, hfrag⟩
      exact dayFragNames_mem part n hfrag
  · right
    exact ⟨[singleDayName (((jsSplit (· = '|') mp).map jsTrim).getD 0 "")], by simp,
      fun n hmem => by rw [List.mem_singleton.mp hmem]; exact singleDayName_mem _, rfl⟩

theorem parseRow_shape (cmap : ColumnMap) (acc : List Course) (row : List String) (c : Course)
    (hc : c ∈ parseRow cmap acc row) :
    c ∈ acc ∨ ∃ n r, c = courseOfRow cmap n r := by
  simp only [parseRow] at hc
  split at hc
  · exact Or.inl hc
  · split at hc
    · exact Or.inl hc
    · split at hc
      · rcases List.mem_append.mp hc with h | h
        · exact Or.inl h
        · exact Or.inr ⟨acc.length + 1, row, List.mem_singleton.mp h⟩
      · exact Or.inl hc

theorem foldl_parseRow_shape (cmap : ColumnMap) (rows : List (List String)) :
    ∀ acc c, c ∈ rows.foldl (parseRow cmap) acc →
      c ∈ acc ∨ ∃ n r, c = courseOfRow cmap n r := by
  induction rows with
  | nil => intro acc c hc; exact Or.inl hc
  | cons r rs ih =>
    intro acc c hc
    rcases ih (parseRow cmap acc r) c hc with h | h
    · exact parseRow_shape cmap acc r c h
    · exact Or.inr h

theorem courseOfRow_days (cmap : ColumnMap) (n : Nat) (row : List String) :
    (courseOfRow cmap n row).days =
      jsOr (parseMeetingPatterns (getCellValue row cmap.meetingPatterns)).days "Monday" := rfl

/- ## Digit-rendering lemmas -/

theorem digitChar09_digit (n : Nat) : isDigit09 (digitChar09 n) = true := by
  have hm : n % 10 < 10 := Nat.mod_lt _ (by omega)
  unfold digitChar09 isDigit09
  interval_cases h : n % 10 <;> decide

theorem natDigitsAux_all (fuel : Nat) : ∀ n, (natDigitsAux fuel n).all isDigit09 = true := by
  induction fuel with
  | zero => intro n; rfl
  | succ fuel ih =>
    intro n
    unfold natDigitsAux
    split
    · simp [digitChar09_digit]
    · simp [List.all_append, ih (n / 10), digitChar09_digit]

theorem natDigitsAux_len_le (fuel : Nat) : ∀ n k, 1 ≤ k → k ≤ fuel → n < 10 ^ k →
    (natDigitsAux fuel n).length ≤ k := by
  induction fuel with
  | zero => intro n k hk1 hk2 _; omega
  | succ fuel ih =>
    intro n k hk1 hk2 hn
    unfold natDigitsAux
    split
    · simpa using hk1
    · rename_i hge
      have hk3 : 2 ≤ k := by
        by_contra hcon
        have hk : k = 1 := by omega
        subst hk
        rw [pow_one] at hn
        omega
      have hsplit : (10 : Nat) ^ k = 10 ^ (k - 1) * 10 := by
        rw [← pow_succ]
        congr 1
        omega
      have hdiv : n / 10 < 10 ^ (k - 1) := by
        rw [Nat.div_lt_iff_lt_mul (by omega)]
        omega
      have := ih (n / 10) (k - 1) (by omega) (by omega) hdiv
      simp only [List.length_append, List.length_cons, List.length_nil]
      omega

theorem toList_append (a b : String) : (a ++ b).toList = a.toList ++ b.toList :=
  String.data_append a b

theorem padZero_digits (w n : Nat) : ∀ c ∈ (padZero w (jsStringNat n)).toList,
    isDigit09 c = true := by
  intro c hc
  have hl : (padZero w (jsStringNat n)).toList =
      List.replicate (w - (jsStringNat n).length) '0' ++ natDigitsAux 30 n := rfl
  rw [hl] at hc
  rcases List.mem_append.mp hc with h | h
  · rw [List.eq_of_mem_replicate h]; decide
  · exact List.all_eq_true.mp (natDigitsAux_all 30 n) c h

theorem padZero_len (w : Nat) (s : String) (h : s.length ≤ w) : (padZero w s).length = w := by
  have hshape : (padZero w s).length = (w - s.length) + s.toList.length := by
    show (List.replicate (w - s.length) '0' ++ s.toList).length = _
    simp [List.length_append]
  have hts : s.toList.length = s.length := rfl
  omega

theorem jsStringNat_len_le (n k : Nat) (hk : 1 ≤ k) (hk30 : k ≤ 30) (hn : n < 10 ^ k) :
    (jsStringNat n).length ≤ k := by
  have h := natDigitsAux_len_le 30 n k hk hk30 hn
  have hts : (jsStringNat n).length = (natDigitsAux 30 n).length := rfl
  omega

theorem parseDateTime_chars (dateStr : Option String) (timeStr s : String)
    (h : parseDateTime dateStr timeStr = some s) :
    ∃ d dt t, dateStr = some d ∧ parseStartCivil d = some dt ∧ parseTime timeStr = some t ∧
      s.toList = (padZero 4 (jsStringNat dt.year)).toList ++ ['-'] ++
        (padZero 2 (jsStringNat dt.month)).toList ++ ['-'] ++
        (padZero 2 (jsStringNat dt.day)).toList ++ ['T'] ++
        (padZero 2 (jsStringNat t.1)).toList ++ [':'] ++
        (padZero 2 (jsStringNat t.2)).toList ++ [':', '0', '0'] := by
  cases dateStr with
  | none => simp [parseDateTime] at h
  | some d =>
    simp only [parseDateTime] at h
    split at h
    · simp at h
    · cases ht : parseTime timeStr with
      | none => rw [ht] at h; simp at h
      | some t =>
        rw [ht] at h
        cases hp : parseStartCivil d with
        | none => rw [hp] at h; simp at h
        | some dt =>
          rw [hp] at h
          simp only [Option.some.injEq] at h
          refine ⟨d, dt, t, rfl, hp, rfl, ?_⟩
          rw [← h]
          simp only [toList_append, List.append_assoc]
          rfl

/- ## Claim C9 -/

set_option maxRecDepth 20000 in
/-- C9 counterexample: a meeting pattern listing Wednesday before Monday
yields a Course whose days field is Wednesday/Monday, which is not an
ordered Monday-first canonical sequence, refuting the claim as stated. -/
theorem C9_counterexample :
    (parseWorkdayData wGridDays).map Course.days = ["Wednesday/Monday"] ∧
      mondayFirstCanonical "Wednesday/Monday" = false :=
  ⟨by rfl, by decide⟩

/-- C9 amended: the days field is built in matched order with duplicates
retained and a Monday default. Concretely: parseMeetingPatterns takes the
first pipe-delimited token of the cell and, if it contains a slash, joins
with slashes the full weekday names produced fragment by fragment in input
order by dayFragNames, which checks Monday through Sunday within each
fragment; otherwise it uses singleDayName. courseOfRow then substitutes
Monday exactly when that string is empty. Consequently every Course
extracted from a grid arises from courseOfRow and carries a non-empty
slash-join of full weekday names as its days field, with no Monday-first
reordering and no de-duplication. -/
theorem C9_days_matched_order (data : List (List String)) (c : Course)
    (hc : c ∈ parseWorkdayData data) :
    (∀ mp : String,
      (parseMeetingPatterns mp).days =
        (if jsIncludes (((jsSplit (· = '|') mp).map jsTrim).getD 0 "") "/" then
          String.intercalate "/"
            ((jsSplit (· = '/') (((jsSplit (· = '|') mp).map jsTrim).getD 0 "")).flatMap
              dayFragNames)
        else singleDayName (((jsSplit (· = '|') mp).map jsTrim).getD 0 ""))) ∧
    (∀ cmap k row, (courseOfRow cmap k row).days =
      jsOr (parseMeetingPatterns (getCellValue row cmap.meetingPatterns)).days "Monday") ∧
    (∃ k r, c = courseOfRow (columnMapOf (data.getD (headerRowIdx data) [])) k r) ∧
    c.days ≠ "" ∧ ∃ names : List String, names ≠ [] ∧
      (∀ n ∈ names, n ∈ weekdayNames) ∧ c.days = String.intercalate "/" names := by
  refine ⟨parseMeetingPatterns_days_eqn, fun cmap k row => courseOfRow_days cmap k row, ?_⟩
  have hshape : c ∈ ([] : List Course) ∨ ∃ k r, c = courseOfRow (columnMapOf
      (data.getD (headerRowIdx data) [])) k r := by
    simp only [parseWorkdayData] at hc
    split at hc
    · simp at hc
    · exact foldl_parseRow_shape _ _ [] c hc
  rcases hshape with h | ⟨k, r, rfl⟩
  · simp at h
  · refine ⟨⟨k, r, rfl⟩, ?_⟩
    rw [courseOfRow_days]
    rcases parseMeetingPatterns_days (getCellValue r (columnMapOf
        (data.getD (headerRowIdx data) [])).meetingPatterns) with hd | ⟨names, hne, hmem, hd⟩
    · rw [hd]
      refine ⟨by decide, ["Monday"], by simp, ?_, rfl⟩
      intro x hx
      rw [List.mem_singleton.mp hx]
      unfold weekdayNames
      simp
    · rw [hd]
      unfold jsOr
      split
      · refine ⟨by decide, ["Monday"], by simp, ?_, rfl⟩
        intro x hx
        rw [List.mem_singleton.mp hx]
        unfold weekdayNames
        simp
      · rename_i hnee
        exact ⟨hnee, names, hne, hmem, rfl⟩

set_option maxRecDepth 20000 in
/-- Witness for the amended C9 at the sample grid course. -/
theorem C9_witness :
    witnessCourse ∈ parseWorkdayData witnessGrid ∧
      ((∀ mp : String,
        (parseMeetingPatterns mp).days =
          (if jsIncludes (((jsSplit (· = '|') mp).map jsTrim).getD 0 "") "/" then
            String.intercalate "/"
              ((jsSplit (· = '/') (((jsSplit (· = '|') mp).map jsTrim).getD 0 "")).flatMap
                dayFragNames)
          else singleDayName (((jsSplit (· = '|') mp).map jsTrim).getD 0 ""))) ∧
      (∀ cmap k row, (courseOfRow cmap k row).days =
        jsOr (parseMeetingPatterns (getCellValue row cmap.meetingPatterns)).days "Monday") ∧
      (∃ k r, witnessCourse =
        courseOfRow (columnMapOf (witnessGrid.getD (headerRowIdx witnessGrid) [])) k r) ∧
      witnessCourse.days ≠ "" ∧ ∃ names : List String, names ≠ [] ∧
        (∀ n ∈ names, n ∈ weekdayNames) ∧
        witnessCourse.days = String.intercalate "/" names) := by
  have hmem : witnessCourse ∈ parseWorkdayData witnessGrid := by
    rw [show parseWorkdayData witnessGrid = [witnessCourse] from rfl]
    exact List.mem_singleton_self _
  exact ⟨hmem, C9_days_matched_order witnessGrid witnessCourse hmem⟩

/- ## Claim C6 -/

/-- C6: on the API create path every event body pairs its start and end
date-times with the explicit America/Chicago time zone, and the
date-time strings come from parseDateTime, which renders digits and the
separators dash, T and colon only — a local wall-clock string that never
carries a UTC Z suffix — in the YYYY-MM-DDTHH:MM:SS layout whenever the
parsed components have their ordinary magnitudes. -/
theorem C6_local_datetime_no_utc_suffix :
    (∀ course b body, buildEventBody course b = .ok body →
      body.eventStart.timeZone = "America/Chicago" ∧
      body.eventEnd.timeZone = "America/Chicago" ∧
      parseDateTime course.startDate course.time = some body.eventStart.dateTime ∧
      parseDateTime course.startDate course.endTime = some body.eventEnd.dateTime) ∧
    (∀ dateStr timeStr s, parseDateTime dateStr timeStr = some s →
      ∀ c ∈ s.toList, c ≠ 'Z') ∧
    (∀ dateStr timeStr s d dt t, parseDateTime dateStr timeStr = some s →
      dateStr = some d → parseStartCivil d = some dt → parseTime timeStr = some t →
      ∃ ys ms ds2 hs2 mis : List Char,
        ys.all isDigit09 = true ∧ ms.all isDigit09 = true ∧ ds2.all isDigit09 = true ∧
        hs2.all isDigit09 = true ∧ mis.all isDigit09 = true ∧
        s.toList = ys ++ ['-'] ++ ms ++ ['-'] ++ ds2 ++ ['T'] ++ hs2 ++ [':'] ++ mis ++
          [':', '0', '0'] ∧
        (dt.year ≤ 9999 → ys.length = 4) ∧ (dt.month ≤ 99 → ms.length = 2) ∧
        (dt.day ≤ 99 → ds2.length = 2) ∧ (t.1 ≤ 99 → hs2.length = 2) ∧
        (t.2 ≤ 99 → mis.length = 2)) := by
  refine ⟨?_, ?_, ?_⟩
  · intro course b body h
    obtain ⟨_, h2, h3, h4, h5⟩ := buildEventBody_ok course b body h
    exact ⟨h2, h3, h4, h5⟩
  · intro dateStr timeStr s h c hc
    obtain ⟨d, dt, t, _, _, _, hlist⟩ := parseDateTime_chars dateStr timeStr s h
    intro hz
    subst hz
    rw [hlist] at hc
    simp only [List.append_assoc, List.mem_append] at hc
    rcases hc with h1 | h1 | h1 | h1 | h1 | h1 | h1 | h1 | h1 | h1
    · have := padZero_digits 4 dt.year 'Z' h1; simp [isDigit09] at this
    · exact absurd h1 (by decide)
    · have := padZero_digits 2 dt.month 'Z' h1; simp [isDigit09] at this
    · exact absurd h1 (by decide)
    · have := padZero_digits 2 dt.day 'Z' h1; simp [isDigit09] at this
    · exact absurd h1 (by decide)
    · have := padZero_digits 2 t.1 'Z' h1; simp [isDigit09] at this
    · exact absurd h1 (by decide)
    · have := padZero_digits 2 t.2 'Z' h1; simp [isDigit09] at this
    · exact absurd h1 (by decide)
  · intro dateStr timeStr s d dt t h hd hdt ht
    obtain ⟨d', dt', t', hd', hdt', ht', hlist⟩ := parseDateTime_chars dateStr timeStr s h
    rw [hd] at hd'
    have hdeq : d = d' := by injection hd'
    subst hdeq
    rw [hdt] at hdt'
    have hdteq : dt = dt' := by injection hdt'
    subst hdteq
    rw [ht] at ht'
    have hteq : t = t' := by injection ht'
    subst hteq
    refine ⟨(padZero 4 (jsStringNat dt.year)).toList, (padZero 2 (jsStringNat dt.month)).toList,
      (padZero 2 (jsStringNat dt.day)).toList, (padZero 2 (jsStringNat t.1)).toList,
      (padZero 2 (jsStringNat t.2)).toList,
      List.all_eq_true.mpr (padZero_digits 4 dt.year),
      List.all_eq_true.mpr (padZero_digits 2 dt.month),
      List.all_eq_true.mpr (padZero_digits 2 dt.day),
      List.all_eq_true.mpr (padZero_digits 2 t.1),
      List.all_eq_true.mpr (padZero_digits 2 t.2),
      hlist, ?_, ?_, ?_, ?_, ?_⟩
    · intro hy
      have : (padZero 4 (jsStringNat dt.year)).length = 4 :=
        padZero_len 4 _ (jsStringNat_len_le dt.year 4 (by omega) (by omega) (by norm_num; omega))
      exact this
    · intro hm
      have : (padZero 2 (jsStringNat dt.month)).length = 2 :=
        padZero_len 2 _ (jsStringNat_len_le dt.month 2 (by omega) (by omega) (by norm_num; omega))
      exact this
    · intro hdd
      have : (padZero 2 (jsStringNat dt.day)).length = 2 :=
        padZero_len 2 _ (jsStringNat_len_le dt.day 2 (by omega) (by omega) (by norm_num; omega))
      exact this
    · intro hh
      have : (padZero 2 (jsStringNat t.1)).length = 2 :=
        padZero_len 2 _ (jsStringNat_len_le t.1 2 (by omega) (by omega) (by norm_num; omega))
      exact this
    · intro hmi
      have : (padZero 2 (jsStringNat t.2)).length = 2 :=
        padZero_len 2 _ (jsStringNat_len_le t.2 2 (by omega) (by omega) (by norm_num; omega))
      exact this

set_option maxRecDepth 20000 in
/-- Witness for C6: the sample complete course builds a body, and its
start date-time decomposes into the local layout. -/
theorem C6_witness :
    buildEventBody wCourseA "batch_123_abc" =
      .ok {
        summary := "CSE 4501 - X"
        description := "Instructor: I\nLocation: R"
        location := "R"
        eventStart := ⟨"2025-01-13T17:30:00", "America/Chicago"⟩
        eventEnd := ⟨"2025-01-13T19:00:00", "America/Chicago"⟩
        recurrence := ["RRULE:FREQ=WEEKLY;BYDAY=MO,WE;UNTIL=20250502"]
        appSource := "workday-to-googlecal"
        batchId := "batch_123_abc" } ∧
      ({
        summary := "CSE 4501 - X"
        description := "Instructor: I\nLocation: R"
        location := "R"
        eventStart := ⟨"2025-01-13T17:30:00", "America/Chicago"⟩
        eventEnd := ⟨"2025-01-13T19:00:00", "America/Chicago"⟩
        recurrence := ["RRULE:FREQ=WEEKLY;BYDAY=MO,WE;UNTIL=20250502"]
        appSource := "workday-to-googlecal"
        batchId := "batch_123_abc" } : EventBody).eventStart.timeZone = "America/Chicago" :=
  ⟨by rfl,
    (C6_local_datetime_no_utc_suffix.1 wCourseA "batch_123_abc" _ (by rfl)).1⟩

/- ## Claim C5 -/

/-- C5: getRecurrenceRule returns the one-element weekly RRULE list with
the mapped two-letter day codes in input order and an UNTIL bound equal
to the compact end date exactly when the day string and both boundary
dates are present, the mapped day list is non-empty and both dates
parse; it returns null when any input is absent, when no fragment maps
to a weekday, or when either boundary date is unparseable; and the
concrete Monday, Wednesday, Friday instance renders as expected. -/
theorem C5_getRecurrenceRule_correct :
    (∀ days sd ed sdt edt, days ≠ "" → sd ≠ "" → ed ≠ "" →
      jsDateParse sd = some sdt → jsDateParse ed = some edt →
      ((jsSplit (fun c => c = '/' || c = ',') days).filterMap
        fun day => dayCodeOf (jsTrim day)) ≠ [] →
      getRecurrenceRule days (some sd) (some ed) =
        some ["RRULE:FREQ=WEEKLY;BYDAY=" ++
          String.intercalate ","
            ((jsSplit (fun c => c = '/' || c = ',') days).filterMap
              fun day => dayCodeOf (jsTrim day)) ++
          ";UNTIL=" ++ untilCompact edt]) ∧
    (∀ sd ed, getRecurrenceRule "" sd ed = none) ∧
    (∀ days ed, getRecurrenceRule days none ed = none) ∧
    (∀ days sd, getRecurrenceRule days sd none = none) ∧
    (∀ days ed, getRecurrenceRule days (some "") (some ed) = none) ∧
    (∀ days sd, getRecurrenceRule days (some sd) (some "") = none) ∧
    (∀ days sd ed, days ≠ "" → sd ≠ "" → ed ≠ "" →
      ((jsSplit (fun c => c = '/' || c = ',') days).filterMap
        fun day => dayCodeOf (jsTrim day)) = [] →
      getRecurrenceRule days (some sd) (some ed) = none) ∧
    (∀ days sd ed, days ≠ "" → sd ≠ "" → ed ≠ "" → jsDateParse sd = none →
      getRecurrenceRule days (some sd) (some ed) = none) ∧
    (∀ days sd ed sdt, days ≠ "" → sd ≠ "" → ed ≠ "" → jsDateParse sd = some sdt →
      jsDateParse ed = none →
      getRecurrenceRule days (some sd) (some ed) = none) ∧
    getRecurrenceRule "Monday/Wednesday/Friday" (some "2025-01-13") (some "2025-05-02") =
      some ["RRULE:FREQ=WEEKLY;BYDAY=MO,WE,FR;UNTIL=20250502"] := by
  have hbranch : ∀ days sd ed, days ≠ "" → sd ≠ "" → ed ≠ "" →
      getRecurrenceRule days (some sd) (some ed) =
        (if ((jsSplit (fun c => c = '/' || c = ',') days).filterMap
            fun day => dayCodeOf (jsTrim day)).isEmpty = true then none
         else
           match jsDateParse sd, jsDateParse ed with
           | some _, some endDt =>
               some ["RRULE:FREQ=WEEKLY;BYDAY=" ++
                 String.intercalate ","
                   ((jsSplit (fun c => c = '/' || c = ',') days).filterMap
                     fun day => dayCodeOf (jsTrim day)) ++
                 ";UNTIL=" ++ untilCompact endDt]
           | _, _ => none) := by
    intro days sd ed hd hs he
    simp only [getRecurrenceRule]
    rw [if_neg (by simp [hd, hs, he])]
  refine ⟨?_, fun sd ed => ?_, fun days ed => rfl, fun days sd => ?_, fun days ed => ?_,
    fun days sd => ?_, ?_, ?_, ?_, by decide⟩
  · intro days sd ed sdt edt hd hs he hsdt hedt hmap
    rw [hbranch days sd ed hd hs he]
    have hie : ((jsSplit (fun c => c = '/' || c = ',') days).filterMap
        fun day => dayCodeOf (jsTrim day)).isEmpty = false := by
      cases hx : (jsSplit (fun c => c = '/' || c = ',') days).filterMap
          fun day => dayCodeOf (jsTrim day) with
      | nil => exact absurd hx hmap
      | cons a l => rfl
    rw [hie]
    simp only [Bool.false_eq_true, if_false]
    rw [hsdt, hedt]
  · cases sd with
    | none => rfl
    | some s =>
      cases ed with
      | none => rfl
      | some e => simp [getRecurrenceRule]
  · cases sd with
    | none => rfl
    | some s => rfl
  · simp [getRecurrenceRule]
  · simp [getRecurrenceRule]
  · intro days sd ed hd hs he hmap
    rw [hbranch days sd ed hd hs he, hmap]
    rfl
  · intro days sd ed hd hs he hsdt
    rw [hbranch days sd ed hd hs he]
    split
    · rfl
    · rw [hsdt]
  · intro days sd ed sdt hd hs he hsdt hedt
    rw [hbranch days sd ed hd hs he]
    split
    · rfl
    · rw [hsdt, hedt]

set_option maxRecDepth 20000 in
/-- Witness for C5: the non-null conjunct applied at the concrete
Monday, Wednesday, Friday instance. -/
theorem C5_witness :
    ("Monday/Wednesday/Friday" : String) ≠ "" ∧ ("2025-01-13" : String) ≠ "" ∧
      ("2025-05-02" : String) ≠ "" ∧
      jsDateParse "2025-01-13" = some ⟨2025, 1, 13⟩ ∧
      jsDateParse "2025-05-02" = some ⟨2025, 5, 2⟩ ∧
      ((jsSplit (fun c => c = '/' || c = ',') "Monday/Wednesday/Friday").filterMap
        fun day => dayCodeOf (jsTrim day)) ≠ [] ∧
      getRecurrenceRule "Monday/Wednesday/Friday" (some "2025-01-13") (some "2025-05-02") =
        some ["RRULE:FREQ=WEEKLY;BYDAY=" ++
          String.intercalate ","
            ((jsSplit (fun c => c = '/' || c = ',') "Monday/Wednesday/Friday").filterMap
              fun day => dayCodeOf (jsTrim day)) ++
          ";UNTIL=" ++ untilCompact ⟨2025, 5, 2⟩] :=
  ⟨by decide, by decide, by decide, by decide, by decide, by decide,
    C5_getRecurrenceRule_correct.1 "Monday/Wednesday/Friday" "2025-01-13" "2025-05-02"
      ⟨2025, 1, 13⟩ ⟨2025, 5, 2⟩ (by decide) (by decide) (by decide) (by decide) (by decide)
      (by decide)⟩

/-- Witness for C4: the general conjunct applied at serial 61. -/
theorem C4_witness :
    jsParseFloatInt "61" = some 61 ∧ (1 : Int) ≤ 61 ∧
      convertExcelDate "61" =
        some (jsStringNat (specSerialDate (61 : Int).toNat).year ++ "-" ++
          padZero 2 (jsStringNat (specSerialDate (61 : Int).toNat).month) ++ "-" ++
          padZero 2 (jsStringNat (specSerialDate (61 : Int).toNat).day)) :=
  ⟨by decide, by decide,
    C4_convertExcelDate_correct.1 "61" 61 (by decide) (by decide)⟩

end Workday
